import Mathlib

/-!
# dynamic-api: the relationship parser, the mock-data generator, the JSON:API formatter
and the route handlers of `src/automatic.js`, and the resolver and the handler of
`src/controlled.js`

Shallow embedding of the JavaScript source.

* A JavaScript string is a `List Char` (`Str`).  The functions of the source tell apart only
  the letters `a`..`z`, the white space of `\s` and everything else.
* A JavaScript object used as a dictionary is the list of its own properties in enumeration
  order (`Obj`).  A read `o[k]` first looks at the own properties and then at
  `Object.prototype`, as JavaScript does (`Obj.read`).  A write `o[k] = v` defines or
  updates an own property (`Obj.set`); that is what JavaScript does for every key but the
  accessor `__proto__`, whose write makes no own property.  The parser and the generator
  of `src/automatic.js` write under names that the regular expression and the pluralizer
  make.  Where the keys are those of a value handed in, the accessor is part of the write:
  in `relationshipLinks`, whose keys are those of the entity graph it is given, and in
  `assignGenerated` of `src/controlled.js`, whose keys are those of the user's JSON.
* A thrown `TypeError` is the `error` of `Except`.
* The npm package `pluralize` and the generators of `@faker-js/faker` are not part of the
  repository: they are parameters (`Pluralizer`, `Faker`, and `Library` for the manual
  mode).
-/

namespace DynamicApi

/-- A JavaScript string. -/
abbrev Str := List Char

/-! ## Strings and regular expressions -/

/-- The class `\s` of a JavaScript regular expression, which is also the set of characters
that `String.prototype.trim` strips: WhiteSpace and LineTerminator of ECMAScript. -/
def isSpace (c : Char) : Bool :=
  let n := c.toNat
  n == 0x09 || n == 0x0A || n == 0x0B || n == 0x0C || n == 0x0D || n == 0x20 ||
  n == 0xA0 || n == 0x1680 || (0x2000 ≤ n && n ≤ 0x200A) || n == 0x2028 || n == 0x2029 ||
  n == 0x202F || n == 0x205F || n == 0x3000 || n == 0xFEFF

/-- The class `[a-z]`. -/
def isLower (c : Char) : Bool :=
  0x61 ≤ c.toNat && c.toNat ≤ 0x7A

/-- The class `[a-z\s]` of `relationshipRegex`. -/
def isNameChar (c : Char) : Bool :=
  isLower c || isSpace c

/-- What `toLowerCase` makes of one character: `A`..`Z` become `a`..`z`; the Kelvin sign
U+212A becomes `k` and U+0130 becomes `i` followed by U+0307, the two characters outside
ASCII whose lower case contains an ASCII letter.  Every other character stays outside
`[a-z\s]` whatever `toLowerCase` does to it, and is left as it is. -/
def lowerChar (c : Char) : Str :=
  if 0x41 ≤ c.toNat && c.toNat ≤ 0x5A then [Char.ofNat (c.toNat + 32)]
  else if c.toNat == 0x212A then ['k']
  else if c.toNat == 0x0130 then ['i', Char.ofNat 0x0307]
  else [c]

/-- The method `String.prototype.toLowerCase`. -/
def toLowerCase (s : Str) : Str :=
  s.flatMap lowerChar

/-- The method `String.prototype.trim`. -/
def trim (s : Str) : Str :=
  ((s.dropWhile isSpace).reverse.dropWhile isSpace).reverse

/-- The call `.replace(/\s/g, '-')`. -/
def hyphenate (s : Str) : Str :=
  s.map fun c => if isSpace c then '-' else c

/-- A literal of a regular expression at the start of `s`: what is left of `s` behind it. -/
def lit (w : Str) (s : Str) : List Str :=
  if w.isPrefixOf s then [s.drop w.length] else []

/-- A greedy `c+` at the start of `s`: every way to consume one or more characters of the
class, as (consumed, rest), in the order in which a backtracking matcher tries them,
the longest first. -/
def plusGreedy (p : Char → Bool) : Str → List (Str × Str)
  | [] => []
  | c :: s =>
    if p c then (plusGreedy p s).map (fun m => (c :: m.1, m.2)) ++ [([c], s)] else []

/-- A lazy `c+?` at the start of `s`: as `plusGreedy`, the shortest first. -/
def plusLazy (p : Char → Bool) : Str → List (Str × Str)
  | [] => []
  | c :: s =>
    if p c then ([c], s) :: (plusLazy p s).map (fun m => (c :: m.1, m.2)) else []

/-- The matches of
`/(?:a|an)\s+([a-z\s]+?)\s+(?:has|includes)\s+(?:multiple|many)\s+([a-z\s]+)/`
that start at the start of `s`, as the pairs of the two capture groups, in the order in which
the backtracking matcher of JavaScript finds them. -/
def relationshipRegexAt (s : Str) : List (Str × Str) :=
  (lit "a".toList s ++ lit "an".toList s).flatMap fun s1 =>
  (plusGreedy isSpace s1).flatMap fun w1 =>
  (plusLazy isNameChar w1.2).flatMap fun g1 =>
  (plusGreedy isSpace g1.2).flatMap fun w2 =>
  (lit "has".toList w2.2 ++ lit "includes".toList w2.2).flatMap fun s2 =>
  (plusGreedy isSpace s2).flatMap fun w3 =>
  (lit "multiple".toList w3.2 ++ lit "many".toList w3.2).flatMap fun s3 =>
  (plusGreedy isSpace s3).flatMap fun w4 =>
  (plusGreedy isNameChar w4.2).map fun g2 => (g1.1, g2.1)

/-- The call `s.match(relationshipRegex)`: the capture groups of the first match at the
leftmost position that has one, `none` for `null`. -/
def matchRelationship : Str → Option (Str × Str)
  | [] => none
  | c :: s =>
    match (relationshipRegexAt (c :: s)).head? with
    | some m => some m
    | none => matchRelationship s

/-- The separator `/and(?:\s+each)?/` at the start of `s`: what is left of `s` behind its
first match (with `each` before without). -/
def separatorAt (s : Str) : Option Str :=
  ((lit "and".toList s).flatMap fun s1 =>
    ((plusGreedy isSpace s1).flatMap fun w => lit "each".toList w.2) ++ [s1]).head?

/-- The loop of `String.prototype.split` for a separator that matches no empty string:
`cur` is the piece being read, reversed; `skip` counts the characters of a separator
that are still to be passed over. -/
def splitLoop : Str → Str → Nat → List Str
  | [], cur, _ => [cur.reverse]
  | _ :: s, cur, skip + 1 => splitLoop s cur skip
  | c :: s, cur, 0 =>
    match separatorAt (c :: s) with
    | some rest => cur.reverse :: splitLoop s [] (s.length - rest.length)
    | none => splitLoop s (c :: cur) 0

/-- The call `s.split(/and(?:\s+each)?/)`. -/
def splitOnAnd (s : Str) : List Str :=
  splitLoop s [] 0

/-! ## JavaScript objects -/

/-- A JavaScript object used as a dictionary: its own properties in enumeration order. -/
abbrev Obj (α : Type) := List (Str × α)

/-- The names of the properties that every ordinary object inherits from
`Object.prototype`. -/
def protoNames : List Str :=
  ["constructor".toList, "__defineGetter__".toList, "__defineSetter__".toList,
   "hasOwnProperty".toList, "__lookupGetter__".toList, "__lookupSetter__".toList,
   "isPrototypeOf".toList, "propertyIsEnumerable".toList, "toString".toList,
   "valueOf".toList, "__proto__".toList, "toLocaleString".toList]

/-- Whether `Object.prototype` has the property `k`. -/
def protoHas (k : Str) : Bool :=
  protoNames.contains k

/-- What a read `o[k]` gives. -/
inductive Lookup (α : Type) where
  /-- The value of the own property `k`. -/
  | own (v : α)
  /-- A member of `Object.prototype`: a truthy value that is neither an entity nor an
  array (it has no `relationships`, no `forEach`, no `find`, no `some`, no `filter`). -/
  | inherited
  /-- The value `undefined`. -/
  | undefined
  deriving DecidableEq

/-- The keys of an object, `Object.keys(o)`. -/
def Obj.keys {α : Type} (o : Obj α) : List Str :=
  o.map Prod.fst

/-- The read `o[k]`. -/
def Obj.read {α : Type} (o : Obj α) (k : Str) : Lookup α :=
  match o.lookup k with
  | some v => .own v
  | none => if protoHas k then .inherited else .undefined

/-- The write `o[k] = v`: the value of an own property is replaced where it stands, a new
property is added behind the others. -/
def Obj.set {α : Type} : Obj α → Str → α → Obj α
  | [], k, v => [(k, v)]
  | (k', v') :: o, k, v => if k' == k then (k', v) :: o else (k', v') :: Obj.set o k v

/-- An exception thrown by the JavaScript code. -/
inductive JsError where
  /-- A `TypeError`: a property of `undefined` is read or written, or a value that is no
  function is called. -/
  | typeError
  deriving DecidableEq

/-! ## Module 1: the parser -/

/-- The package `pluralize`, which is not part of the repository: `pluralize(word)` and
`pluralize.singular(word)`. -/
structure Pluralizer where
  /-- The call `pluralize(word)`. -/
  plural : Str → Str
  /-- The call `pluralize.singular(word)`. -/
  singular : Str → Str

/-- A relationship descriptor `{ type, entity }`. -/
structure Relationship where
  /-- The field `type`. -/
  type : Str
  /-- The field `entity`. -/
  entity : Str
  deriving DecidableEq

/-- An entity `{ relationships }`. -/
structure Entity where
  /-- The field `relationships`: relationship name to descriptor. -/
  relationships : Obj Relationship
  deriving DecidableEq

/-- The entity graph: entity name to entity. -/
abbrev EntityGraph := Obj Entity

/-- The statement `if (!entities[name]) { entities[name] = { relationships: {} }; }`. -/
def registerEntity (entities : EntityGraph) (name : Str) : EntityGraph :=
  match entities.read name with
  | .undefined => entities.set name ⟨[]⟩
  | _ => entities

/-- The body of `if (match)` in `parser.parse` for the capture groups `m`. -/
def addRelationship (pz : Pluralizer) (entities : EntityGraph) (m : Str × Str) :
    Except JsError EntityGraph :=
  let parentSingular := hyphenate (trim m.1)
  let childSingular := hyphenate (trim m.2)
  let entities := registerEntity entities parentSingular
  let entities := registerEntity entities childSingular
  let childPlural := pz.plural childSingular
  match entities.read parentSingular with
  | .own e =>
    .ok (entities.set parentSingular
      ⟨e.relationships.set childPlural ⟨"hasMany".toList, childSingular⟩⟩)
  | _ => .error .typeError

/-- The callback of `relationshipPhrases.forEach`. -/
def parsePhrase (pz : Pluralizer) (entities : EntityGraph) (phrase : Str) :
    Except JsError EntityGraph :=
  match matchRelationship (trim phrase) with
  | some m => addRelationship pz entities m
  | none => .ok entities

/-- The function `parser.parse`. -/
def parse (pz : Pluralizer) (inputString : Str) : Except JsError EntityGraph :=
  (splitOnAnd (toLowerCase inputString)).foldlM (parsePhrase pz) []

/-! ## Module 2: the data generator -/

/-- The constant `MOCK_ITEM_COUNT`. -/
def MOCK_ITEM_COUNT : Nat := 20

/-- A value of a record field: a string, a `Date` (its time value and what `toString()`
gives for it) or `undefined`. -/
inductive Value where
  /-- A string. -/
  | str (s : Str)
  /-- A `Date` object. -/
  | date (ms : Int) (text : Str)
  /-- The value `undefined`. -/
  | undefined
  deriving DecidableEq

/-- A record: field name to value. -/
abbrev Record := Obj Value

/-- The dataset `db`: plural entity name to collection. -/
abbrev Dataset := Obj (List Record)

/-- The read `item.id`: `Object.prototype` has no property `id`, so that a record without an
own `id` gives `undefined`. -/
def Record.id (item : Record) : Value :=
  (item.lookup "id".toList).getD .undefined

/-- The random sources of the generator, which are not part of the repository: the `k`-th
call of each generator of `@faker-js/faker` returns its value at `k`, and the `k`-th
evaluation of `Math.floor(Math.random() * n)` gives `random k % n`, which runs over
the indices `0`..`n - 1` as `Math.random()` runs over the numbers from 0 up to, not
including, 1. -/
structure Faker where
  /-- The call `faker.string.uuid()`. -/
  uuid : Nat → Str
  /-- The call `faker.company.name()`. -/
  companyName : Nat → Str
  /-- The call `faker.date.past()`: the time value of the date and its rendering. -/
  datePast : Nat → Int × Str
  /-- The source of `Math.random()`. -/
  random : Nat → Nat

/-- The record pushed by the `k`-th round of the loop of the first pass. -/
def newItem (fk : Faker) (k : Nat) : Record :=
  [("id".toList, .str (fk.uuid k)), ("name".toList, .str (fk.companyName k)),
   ("createdAt".toList, .date (fk.datePast k).1 (fk.datePast k).2)]

/-- The callback of the first `entityNames.forEach`: `db[entityPlural] = []` and the
`MOCK_ITEM_COUNT` pushes.  The state is the dataset and the number of calls made so far. -/
def createItems (pz : Pluralizer) (fk : Faker) (st : Dataset × Nat) (entityName : Str) :
    Dataset × Nat :=
  let entityPlural := pz.plural entityName
  (st.1.set entityPlural ((List.range MOCK_ITEM_COUNT).map fun i => newItem fk (st.2 + i)),
   st.2 + MOCK_ITEM_COUNT)

/-- The callback of `db[childPlural].forEach`: `child[parentIdField] = randomParent.id`,
at the `k`-th evaluation of `Math.random()`.  The parent collection is read from the
dataset `db` as it was when the `forEach` began: the loop writes only the property
`parentIdField`, which ends in `Id` and is not the property `id` that is read here. -/
def linkChild (fk : Faker) (db : Dataset) (parentPlural parentIdField : Str) (k : Nat)
    (child : Record) : Except JsError Record :=
  match db.read parentPlural with
  | .own parents =>
    match parents.get? (fk.random k % parents.length) with
    | some randomParent => .ok (child.set parentIdField randomParent.id)
    | none => .error .typeError
  | _ => .error .typeError

/-- The loop `db[childPlural].forEach(child => ...)` from the `k`-th evaluation of
`Math.random()` on. -/
def linkChildren (fk : Faker) (db : Dataset) (parentPlural parentIdField : Str) :
    List Record → Nat → Except JsError (List Record)
  | [], _ => .ok []
  | child :: rest, k =>
    match linkChild fk db parentPlural parentIdField k child with
    | .ok child' =>
      match linkChildren fk db parentPlural parentIdField rest (k + 1) with
      | .ok rest' => .ok (child' :: rest')
      | .error e => .error e
    | .error e => .error e

/-- The callback of `Object.keys(parentRelationships).forEach`. -/
def linkRelationship (pz : Pluralizer) (fk : Faker) (parentName : Str) (st : Dataset × Nat)
    (childPlural : Str) : Except JsError (Dataset × Nat) :=
  let parentPlural := pz.plural parentName
  let parentIdField := parentName ++ "Id".toList
  match st.1.read childPlural with
  | .own children =>
    match linkChildren fk st.1 parentPlural parentIdField children st.2 with
    | .ok children' => .ok (st.1.set childPlural children', st.2 + children.length)
    | .error e => .error e
  | .inherited => .error .typeError
  | .undefined => .ok st

/-- The callback of the second `entityNames.forEach`. -/
def linkEntity (pz : Pluralizer) (fk : Faker) (entities : EntityGraph) (st : Dataset × Nat)
    (parentName : Str) : Except JsError (Dataset × Nat) :=
  match entities.read parentName with
  | .own e => e.relationships.keys.foldlM (linkRelationship pz fk parentName) st
  | _ => .error .typeError

/-- The function `dataGenerator.generate`. -/
def generate (pz : Pluralizer) (fk : Faker) (entities : EntityGraph) :
    Except JsError Dataset :=
  let entityNames := entities.keys
  let firstPass := entityNames.foldl (createItems pz fk) ([], 0)
  match entityNames.foldlM (linkEntity pz fk entities) firstPass with
  | .ok st => .ok st.1
  | .error e => .error e

/-! ## Module 3: the JSON:API formatter -/

/-- The object `{ self }` of the field `links` of a resource. -/
structure SelfLinks where
  /-- The field `self`. -/
  self : Str
  deriving DecidableEq

/-- The object `{ related }` of the field `links` of a relationship entry. -/
structure RelatedLinks where
  /-- The field `related`. -/
  related : Str
  deriving DecidableEq

/-- A relationship entry `{ links: { related } }`. -/
structure RelationshipEntry where
  /-- The field `links`. -/
  links : RelatedLinks
  deriving DecidableEq

/-- A JSON:API resource `{ id, type, attributes, links, relationships }`. -/
structure Resource where
  /-- The field `id`. -/
  id : Str
  /-- The field `type`. -/
  type : Str
  /-- The field `attributes`. -/
  attributes : Record
  /-- The field `links`. -/
  links : SelfLinks
  /-- The field `relationships`. -/
  relationships : Obj RelationshipEntry
  deriving DecidableEq

/-- The string that a template literal makes of a value. -/
def Value.text : Value → Str
  | .str s => s
  | .date _ text => text
  | .undefined => "undefined".toList

/-- The call `v.toString()`, which throws on `undefined`. -/
def Value.toStringJs : Value → Except JsError Str
  | .undefined => .error .typeError
  | v => .ok v.text

/-- The loop `for (const relName in parentEntity.relationships)` of `formatResource`, with
the write `relationshipData[relName] = { links: { related } }`.  The names are the own keys
of the `relationships` of the graph that is handed in, where `__proto__` can occur: for that
name the accessor of `Object.prototype` runs, which makes the new entry the prototype of
`relationshipData`, and no own property is made.  The prototype of `relationshipData` is
not represented. -/
def relationshipLinks (type : Str) (id : Value) (relationships : Obj Relationship) :
    Obj RelationshipEntry :=
  relationships.keys.foldl
    (fun relationshipData relName =>
      if relName == "__proto__".toList then relationshipData
      else
        relationshipData.set relName
          ⟨⟨"/".toList ++ type ++ "/".toList ++ id.text ++ "/".toList ++ relName⟩⟩)
    []

/-- The function `jsonApiFormatter.formatResource`; `none` is `null`, as an item and as a
result. -/
def formatResource (pz : Pluralizer) (item : Option Record) (type : Str)
    (allEntities : EntityGraph) : Except JsError (Option Resource) :=
  match item with
  | none => .ok none
  | some item =>
    let id := item.id
    let attributes := item.filter fun kv => kv.1 != "id".toList
    let relationshipData :=
      match allEntities.read (pz.singular type) with
      | .own parentEntity => relationshipLinks type id parentEntity.relationships
      | _ => []
    match id.toStringJs with
    | .ok idString =>
      .ok (some
        { id := idString
          type := type
          attributes := attributes
          links := ⟨"/".toList ++ type ++ "/".toList ++ id.text⟩
          relationships := relationshipData })
    | .error e => .error e

/-- The function `jsonApiFormatter.formatCollection`. -/
def formatCollection (pz : Pluralizer) (items : List Record) (type : Str)
    (allEntities : EntityGraph) : Except JsError (List (Option Resource)) :=
  items.mapM fun item => formatResource pz (some item) type allEntities

/-- An error object `{ status, title, detail }`. -/
structure ErrorObject where
  /-- The field `status`. -/
  status : Str
  /-- The field `title`. -/
  title : Str
  /-- The field `detail`. -/
  detail : Str
  deriving DecidableEq

/-- The function `jsonApiFormatter.formatError` for a numeric status: the list is the
array `errors` of the document. -/
def formatError (status : Nat) (title detail : Str) : List ErrorObject :=
  [{ status := Nat.toDigits 10 status, title := title, detail := detail }]

/-! ## The route handlers of `startServer` -/

/-- The JSON document of a response. -/
inductive Body where
  /-- The document `{ data }` of one resource. -/
  | data (resource : Option Resource)
  /-- The document `{ data }` of a collection. -/
  | collection (resources : List (Option Resource))
  /-- The document `{ errors }`. -/
  | errors (errors : List ErrorObject)
  deriving DecidableEq

/-- A response: the status code and the JSON document. -/
structure Response where
  /-- The status code, 200 unless `res.status` sets it. -/
  status : Nat
  /-- The document passed to `res.json`. -/
  body : Body
  deriving DecidableEq

/-- The expression `db[plural] || []` as the receiver of an array method. -/
def collectionOf (db : Dataset) (plural : Str) : Except JsError (List Record) :=
  match db.read plural with
  | .own collection => .ok collection
  | .undefined => .ok []
  | .inherited => .error .typeError

/-- The detail of both 404 documents. -/
def notFoundDetail (plural id : Str) : Str :=
  "No resource of type '".toList ++ plural ++ "' with ID '".toList ++ id ++
    "' was found.".toList

/-- The handler of `GET /<plural>`. -/
def getCollection (pz : Pluralizer) (db : Dataset) (entities : EntityGraph) (plural : Str) :
    Except JsError Response :=
  match collectionOf db plural with
  | .ok collection =>
    match formatCollection pz collection plural entities with
    | .ok formattedData => .ok ⟨200, .collection formattedData⟩
    | .error e => .error e
  | .error e => .error e

/-- The handler of `GET /<plural>/:id` for `req.params.id = id`. -/
def getItem (pz : Pluralizer) (db : Dataset) (entities : EntityGraph) (plural : Str)
    (id : Str) : Except JsError Response :=
  match collectionOf db plural with
  | .ok collection =>
    match collection.find? fun i => i.id == .str id with
    | none =>
      .ok ⟨404, .errors (formatError 404 "Resource Not Found".toList (notFoundDetail plural id))⟩
    | some item =>
      match formatResource pz (some item) plural entities with
      | .ok formattedData => .ok ⟨200, .data formattedData⟩
      | .error e => .error e
  | .error e => .error e

/-- The test `child[parentIdField] === parentId` of the nested route. -/
def hasParent (parentIdField parentId : Str) (child : Record) : Bool :=
  match child.read parentIdField with
  | .own v => v == .str parentId
  | _ => false

/-- The handler of `GET /<plural>/:id/<childPlural>` of the entity `entityName` for
`req.params.id = parentId`. -/
def getRelated (pz : Pluralizer) (db : Dataset) (entities : EntityGraph)
    (entityName plural childPlural : Str) (parentId : Str) : Except JsError Response :=
  let parentIdField := entityName ++ "Id".toList
  match collectionOf db plural with
  | .ok parents =>
    if parents.any fun p => p.id == .str parentId then
      match collectionOf db childPlural with
      | .ok children =>
        let relatedItems := children.filter (hasParent parentIdField parentId)
        match formatCollection pz relatedItems childPlural entities with
        | .ok formattedData => .ok ⟨200, .collection formattedData⟩
        | .error e => .error e
      | .error e => .error e
    else
      .ok ⟨404, .errors (formatError 404 "Parent Resource Not Found".toList
        (notFoundDetail plural parentId))⟩
  | .error e => .error e

/-! ## Notions used to state the properties of the generator -/

/-- The own ids of the records of a collection. -/
def idsOf (c : List Record) : List (Option Value) :=
  c.map (List.lookup "id".toList)

/-- The own ids of the records of every collection of a dataset. -/
def idTable (db : Dataset) : Obj (List (Option Value)) :=
  db.map fun kc => (kc.1, idsOf kc.2)

/-- The relationship `C` of the entity `P` is linked in `db`: every record of the collection
`C` has a field `P` + `Id` whose value is an id of the table `T` under the plural of `P`. -/
def Linked (pz : Pluralizer) (T : Obj (List (Option Value))) (db : Dataset) (P C : Str) :
    Prop :=
  ∀ coll, List.lookup C db = some coll → ∀ r ∈ coll,
    ∃ v, List.lookup (P ++ "Id".toList) r = some v ∧
      ∃ pids, List.lookup (pz.plural P) T = some pids ∧ some v ∈ pids

/-- Every collection of the table has `MOCK_ITEM_COUNT` entries and each entry is a string. -/
def GoodTable (T : Obj (List (Option Value))) : Prop :=
  ∀ kc ∈ T, kc.2.length = MOCK_ITEM_COUNT ∧ ∀ o ∈ kc.2, ∃ s, o = some (Value.str s)

/-- Every relationship name of the graph that names a member of `Object.prototype` is the
plural of an entity of the graph, so that the second pass of `generate` finds a collection
under it. -/
def Linkable (pz : Pluralizer) (entities : EntityGraph) : Prop :=
  ∀ P ∈ Obj.keys entities,
    ∀ C ∈ (match List.lookup P entities with
      | some e => Obj.keys e.relationships
      | none => []),
      protoHas C = true → C ∈ (Obj.keys entities).map pz.plural

/-- A collection as the first pass leaves it. -/
def FreshCollection (c : List Record) : Prop :=
  c.length = MOCK_ITEM_COUNT ∧ ∀ r ∈ c, ∃ s, List.lookup "id".toList r = some (Value.str s)

/-! ## A sample run -/

/-- A pluralizer for the sample run: a final `y` becomes `ies`, a word that ends in `s`
stays, every other word gets an `s`; the singular undoes it. -/
def samplePluralizer : Pluralizer where
  plural := fun w =>
    if w.getLast? = some 's' then w
    else if w.getLast? = some 'y' then w.dropLast ++ "ies".toList
    else w ++ "s".toList
  singular := fun w =>
    if "sei".toList.isPrefixOf w.reverse then (w.reverse.drop 3).reverse ++ "y".toList
    else if w.getLast? = some 's' then w.dropLast
    else w

/-- The random sources of the sample run: the `k`-th id is the numeral of `k`. -/
def sampleFaker : Faker where
  uuid := fun k => Nat.toDigits 10 k
  companyName := fun k => "company ".toList ++ Nat.toDigits 10 k
  datePast := fun k => (1700000000000 + k, "Tue Nov 14 2023".toList)
  random := fun k => 7 * k + 3

/-- The graph that `parser.parse` returns for
"a university has many programs and a program has many domains" with the sample pluralizer;
the entities `programs` and `program` share the plural `programs`. -/
def sampleGraph : EntityGraph :=
  [("university".toList, ⟨[("programs".toList, ⟨"hasMany".toList, "programs".toList⟩)]⟩),
   ("programs".toList, ⟨[]⟩),
   ("program".toList, ⟨[("domains".toList, ⟨"hasMany".toList, "domains".toList⟩)]⟩),
   ("domains".toList, ⟨[]⟩)]

/-- The dataset of the sample run. -/
def sampleDb : Dataset :=
  match generate samplePluralizer sampleFaker sampleGraph with
  | .ok db => db
  | .error _ => []

/-- The collection `universities` of the sample run. -/
def sampleUniversities : List Record :=
  (List.lookup "universities".toList sampleDb).getD []

/-- The collection `programs` of the sample run. -/
def samplePrograms : List Record :=
  (List.lookup "programs".toList sampleDb).getD []

/-- The first record of the collection `programs` of the sample run. -/
def sampleProgram : Record :=
  samplePrograms.headD []

/-- A graph whose entity `owner` has the relationships `__proto__` and `cats`, both as own
properties, as `JSON.parse` makes them.  It is a graph that `parser.parse` does not return:
the names that the parser makes have no underscore. -/
def protoGraph : EntityGraph :=
  [("owner".toList,
    ⟨[("__proto__".toList, ⟨"hasMany".toList, "__proto__".toList⟩),
      ("cats".toList, ⟨"hasMany".toList, "cats".toList⟩)]⟩),
   ("cats".toList, ⟨[]⟩)]

/-- A record of the collection `owners` with the id `7`. -/
def sampleOwner : Record :=
  [("id".toList, .str "7".toList), ("name".toList, .str "company 7".toList)]

/-! ## The pluralizer of the spec -/

/-- Modelled from the spec: the package `pluralize`, which the repository requires and does
not contain.  The spec asks of it the standard English plural ("domain" becomes "domains") and
that the singular undoes the plural on entity names.  For a regular noun `w` that is: the
plural of `w` is `w` with an `s`, the plural of that plural is the plural itself, and the
singular of the plural of `w` is `w`. -/
def RegularNoun (pz : Pluralizer) (w : Str) : Prop :=
  pz.plural w = w ++ "s".toList ∧ pz.plural (w ++ "s".toList) = w ++ "s".toList ∧
    pz.singular (pz.plural w) = w

/-- A name in canonical form: only the letters `a`..`z` (the code points 97 to 122) and
hyphens. -/
def Canonical (name : Str) : Prop :=
  ∀ c ∈ name, (97 ≤ c.toNat ∧ c.toNat ≤ 122) ∨ c = '-'

/-- Every key of the graph and every target of a relationship in it is in canonical
form. -/
def CanonicalGraph (entities : EntityGraph) : Prop :=
  ∀ kv ∈ entities, Canonical kv.1 ∧ ∀ rd ∈ kv.2.relationships, Canonical rd.2.entity

/-- The fields that the first pass gives to every record. -/
def baseFields : List Str :=
  ["id".toList, "name".toList, "createdAt".toList]

/-- The fields of the records of `db` when the relationships `Q` have been linked: every
record of a collection `K` has each field once, and its fields are the three of the first
pass and a field `P` + `Id` for every entity `P` with `Q P K`. -/
def FieldsOf (Q : Str → Str → Prop) (db : Dataset) : Prop :=
  ∀ K coll, List.lookup K db = some coll → ∀ r ∈ coll,
    (Obj.keys r).Nodup ∧
    ∀ f, f ∈ Obj.keys r ↔ f ∈ baseFields ∨ ∃ P, Q P K ∧ f = P ++ "Id".toList

/-- The graph that `parser.parse` returns for
"a university has many programs and a school has many programs" with the sample
pluralizer. -/
def twoParentGraph : EntityGraph :=
  [("university".toList, ⟨[("programs".toList, ⟨"hasMany".toList, "programs".toList⟩)]⟩),
   ("programs".toList, ⟨[]⟩),
   ("school".toList, ⟨[("programs".toList, ⟨"hasMany".toList, "programs".toList⟩)]⟩)]

/-- The dataset of the sample run on `twoParentGraph`. -/
def twoParentDb : Dataset :=
  match generate samplePluralizer sampleFaker twoParentGraph with
  | .ok db => db
  | .error _ => []

/-- The records of `children` whose field `parentIdField` is the value `v`: what the nested
route selects for the parent id `v`. -/
def childrenOf (parentIdField : Str) (v : Value) (children : List Record) : List Record :=
  children.filter fun c => List.lookup parentIdField c == some v

/-! ## The manual mode: `src/controlled.js` -/

/-- The constant `MOCK_COLLECTION_COUNT`. -/
def MOCK_COLLECTION_COUNT : Nat := 20

/-- A response schema, the result of `JSON.parse`: the properties of an object in
enumeration order.  The code never inspects a number; an integer stands for it. -/
inductive Json where
  /-- The value `null`. -/
  | null
  /-- A boolean. -/
  | bool (b : Bool)
  /-- A number. -/
  | num (n : Int)
  /-- A string. -/
  | str (s : Str)
  /-- An array. -/
  | arr (items : List Json)
  /-- An object. -/
  | obj (props : List (Str × Json))

/-- A JavaScript value of the manual mode: the values of JSON, `undefined`, the functions
and the other objects of the generator library (modules, class instances, dates), which are
known by a tag only. -/
inductive JsVal where
  /-- The value `undefined`. -/
  | undefined
  /-- The value `null`. -/
  | null
  /-- A boolean. -/
  | bool (b : Bool)
  /-- A number. -/
  | num (n : Int)
  /-- A string. -/
  | str (s : Str)
  /-- An array. -/
  | arr (items : List JsVal)
  /-- A plain object: its own properties in enumeration order. -/
  | obj (props : List (Str × JsVal))
  /-- A function: `typeof` gives `function`. -/
  | fn (tag : Nat)
  /-- Any other object of the library. -/
  | ext (handle : Nat)

mutual
/-- A value of the schema as a JavaScript value. -/
def Json.toVal : Json → JsVal
  | .null => .null
  | .bool b => .bool b
  | .num n => .num n
  | .str s => .str s
  | .arr items => .arr (Json.toVals items)
  | .obj props => .obj (Json.toProps props)
/-- The items of an array of the schema as JavaScript values. -/
def Json.toVals : List Json → List JsVal
  | [] => []
  | v :: vs => v.toVal :: Json.toVals vs
/-- The properties of an object of the schema as JavaScript values. -/
def Json.toProps : List (Str × Json) → List (Str × JsVal)
  | [] => []
  | (k, v) :: ps => (k, v.toVal) :: Json.toProps ps
end

/-- The generator library `@faker-js/faker`, which is not part of the repository: the
object `faker`, the read `current[part]` on the values reached from it (an error when the
read throws, as it does on `null`), and the call `current()` of the function `tag` as
the `k`-th resolution of the run. -/
structure Library where
  /-- The object `faker`. -/
  faker : JsVal
  /-- The read `current[part]`. -/
  get : JsVal → Str → Except JsError JsVal
  /-- The call `current()`. -/
  call : Nat → Nat → Except JsError JsVal

/-- The method `String.prototype.split` for a separator of one character. -/
def splitChar (sep : Char) : Str → List Str
  | [] => [[]]
  | c :: s =>
    if c == sep then [] :: splitChar sep s
    else
      match splitChar sep s with
      | [] => [[c]]
      | segment :: rest => (c :: segment) :: rest

/-- The loop `for (const part of pathParts)` of `resolve`: `none` when a part is
`undefined` in `current`, otherwise the value that the path ends in.  The source reads
`current[part]` twice, for the test and for the assignment; both reads give the value of
`get`. -/
def walkPath (lib : Library) : List Str → JsVal → Except JsError (Option JsVal)
  | [], current => .ok (some current)
  | part :: rest, current =>
    match lib.get current part with
    | .ok .undefined => .ok none
    | .ok v => walkPath lib rest v
    | .error e => .error e

/-- The function `fakerResolver.resolve`, as the `k`-th resolution of the run. -/
def resolve (lib : Library) (k : Nat) (pathString : JsVal) : Except JsError JsVal :=
  match pathString with
  | .str s =>
    if "faker.".toList.isPrefixOf s then
      match walkPath lib (splitChar '.' (s.drop 6)) lib.faker with
      | .ok none => .ok pathString
      | .ok (some (.fn tag)) => lib.call tag k
      | .ok (some current) => .ok current
      | .error e => .error e
    else .ok pathString
  | _ => .ok pathString

/-- The write `generated[key] = v` of `generateAttributes`.  Its keys are those of the
user's JSON, where `__proto__` can occur: for that key the accessor of `Object.prototype`
runs, which changes the prototype of `generated` or does nothing, and no own property is
made.  The prototype of `generated` is not represented. -/
def assignGenerated (generated : Obj JsVal) (key : Str) (v : JsVal) : Obj JsVal :=
  if key == "__proto__".toList then generated else Obj.set generated key v

mutual
/-- The body of the loop of `generateAttributes` for one `value`: the value written to
`generated[key]`, by the recursive call for an object that is neither `null` nor an array
and by `resolve` for every other value; `n` counts the resolutions made so far. -/
def generateValue (lib : Library) : Json → Nat → Except JsError (JsVal × Nat)
  | .obj props, n =>
    match generateProps lib props [] n with
    | .ok (generated, n') => .ok (.obj generated, n')
    | .error e => .error e
  | value, n =>
    match resolve lib n value.toVal with
    | .ok v => .ok (v, n + 1)
    | .error e => .error e
/-- The loop `for (const key in schema)` of `generateAttributes` over the properties that
are still to be visited. -/
def generateProps (lib : Library) :
    List (Str × Json) → Obj JsVal → Nat → Except JsError (Obj JsVal × Nat)
  | [], generated, n => .ok (generated, n)
  | (key, value) :: rest, generated, n =>
    match generateValue lib value n with
    | .ok (v, n') => generateProps lib rest (assignGenerated generated key v) n'
    | .error e => .error e
end

/-- The properties that `for (const key in schema)` visits, with `schema[key]`: those of
an object, the indices of an array or of a string, none of any other value.  A string is
the list of its characters here, so the indices of a string are those of its characters;
JavaScript counts the UTF-16 code units, which are the characters for every string of the
Basic Multilingual Plane. -/
def forInEntries : Json → List (Str × Json)
  | .obj props => props
  | .arr items => items.enum.map fun iv => (Nat.toDigits 10 iv.1, iv.2)
  | .str s => s.enum.map fun ic => (Nat.toDigits 10 ic.1, .str [ic.2])
  | _ => []

/-- The function `fakerResolver.generateAttributes`, from the `n`-th resolution of the run
on: the object `generated` and the number of resolutions made. -/
def generateAttributes (lib : Library) (schema : Json) (n : Nat) :
    Except JsError (JsVal × Nat) :=
  match generateProps lib (forInEntries schema) [] n with
  | .ok (generated, n') => .ok (.obj generated, n')
  | .error e => .error e

/-- The test `isSingleItem` of the handler. -/
def isSingleItem (path : Str) : Bool :=
  let pathSegments := (splitChar '/' path).filter fun segment => segment.length > 0
  let lastSegment := pathSegments.getLast?.getD []
  ":".toList.isPrefixOf lastSegment

/-- The loop that fills `collectionResponse`: `count` rounds from the `n`-th resolution
on. -/
def collectionResponse (lib : Library) (schema : Json) :
    Nat → Nat → Except JsError (List JsVal × Nat)
  | 0, n => .ok ([], n)
  | count + 1, n =>
    match generateAttributes lib schema n with
    | .ok (v, n') =>
      match collectionResponse lib schema count n' with
      | .ok (vs, n'') => .ok (v :: vs, n'')
      | .error e => .error e
    | .error e => .error e

/-- What the handler of a manual endpoint passes to `res.json`. -/
inductive ManualBody where
  /-- One object. -/
  | single (v : JsVal)
  /-- An array. -/
  | collection (vs : List JsVal)

/-- The handler of `GET <path>` of the manual mode, from the `n`-th resolution of the run
on. -/
def manualHandler (lib : Library) (path : Str) (responseSchema : Json) (n : Nat) :
    Except JsError (ManualBody × Nat) :=
  if isSingleItem path then
    match generateAttributes lib responseSchema n with
    | .ok (v, n') => .ok (.single v, n')
    | .error e => .error e
  else
    match collectionResponse lib responseSchema MOCK_COLLECTION_COUNT n with
    | .ok (vs, n') => .ok (.collection vs, n')
    | .error e => .error e

/-- The read of a name that an object does not own: the member of `Object.prototype`, a
function with the tag 100 + its place in `protoNames`; the accessor `__proto__` gives the
prototype, the object 3; `undefined` for every other name. -/
def sampleInherited (part : Str) : JsVal :=
  if part == "__proto__".toList then .ext 3
  else if protoHas part then .fn (100 + protoNames.indexOf part)
  else .undefined

/-- A small library of plain objects: `faker` (the object 0) has the modules `string`
(1, with the function `uuid`, tag 0) and `person` (2, with `fullName`, tag 1).  A read
on `undefined` or `null` throws.  Of a function or a primitive value the sample gives the
members of `Object.prototype` only.  The functions of `Object.prototype` are called as
`resolve` calls them, without a receiver: `valueOf`, `hasOwnProperty`,
`propertyIsEnumerable`, `toLocaleString` and the four `__define`/`__lookup` functions
throw a `TypeError`, `toString` gives `[object Undefined]`, `isPrototypeOf` gives
`false` and `constructor` gives a new object. -/
def sampleLibrary : Library where
  faker := .ext 0
  get := fun current part =>
    match current with
    | .undefined => .error .typeError
    | .null => .error .typeError
    | .ext 0 =>
      if part == "string".toList then .ok (.ext 1)
      else if part == "person".toList then .ok (.ext 2)
      else .ok (sampleInherited part)
    | .ext 1 => if part == "uuid".toList then .ok (.fn 0) else .ok (sampleInherited part)
    | .ext 2 => if part == "fullName".toList then .ok (.fn 1) else .ok (sampleInherited part)
    | .ext 3 =>
      if part == "__proto__".toList then .ok .null else .ok (sampleInherited part)
    | _ => .ok (sampleInherited part)
  call := fun tag k =>
    if tag = 0 then .ok (.str ("uuid-".toList ++ Nat.toDigits 10 k))
    else if tag = 1 then .ok (.str ("name-".toList ++ Nat.toDigits 10 k))
    else if tag = 100 then .ok (.obj [])
    else if tag = 106 then .ok (.bool false)
    else if tag = 108 then .ok (.str "[object Undefined]".toList)
    else .error .typeError

/-! ## Properties of objects -/

theorem Obj.mem_set {α : Type} (o : Obj α) (k : Str) (v : α) (kv : Str × α)
    (h : kv ∈ Obj.set o k v) : kv ∈ o ∨ kv = (k, v) := by
  induction o with
  | nil => simpa [Obj.set] using h
  | cons hd tl ih =>
    obtain ⟨k', v'⟩ := hd
    by_cases hk : k' = k
    · subst hk
      simp [Obj.set] at h
      rcases h with h | h
      · exact Or.inr h
      · exact Or.inl (List.mem_cons_of_mem _ h)
    · have hne : (k' == k) = false := by simpa using hk
      simp [Obj.set, hne] at h
      rcases h with h | h
      · exact Or.inl (h ▸ List.mem_cons_self _ _)
      · rcases ih h with h' | h'
        · exact Or.inl (List.mem_cons_of_mem _ h')
        · exact Or.inr h'

theorem Obj.lookup_set {α : Type} (o : Obj α) (k : Str) (v : α) (k' : Str) :
    List.lookup k' (Obj.set o k v) = if k' = k then some v else List.lookup k' o := by
  induction o with
  | nil =>
    by_cases h : k' = k
    · simp [Obj.set, List.lookup, h]
    · have : (k' == k) = false := by simpa using h
      simp [Obj.set, List.lookup, h, this]
  | cons hd tl ih =>
    obtain ⟨k1, v1⟩ := hd
    by_cases h1 : k1 = k
    · subst h1
      by_cases h : k' = k1
      · simp [Obj.set, List.lookup, h]
      · have : (k' == k1) = false := by simpa using h
        simp [Obj.set, List.lookup, h, this]
    · have hne : (k1 == k) = false := by simpa using h1
      by_cases h : k' = k1
      · subst h
        simp [Obj.set, List.lookup, hne, h1]
      · have : (k' == k1) = false := by simpa using h
        simp [Obj.set, List.lookup, hne, this, ih]

theorem Obj.mem_keys_set {α : Type} (o : Obj α) (k : Str) (v : α) (k' : Str) :
    k' ∈ Obj.keys (Obj.set o k v) ↔ k' ∈ Obj.keys o ∨ k' = k := by
  induction o with
  | nil => simp only [Obj.set, Obj.keys, List.map_cons, List.map_nil, List.mem_singleton,
      List.not_mem_nil, false_or]
  | cons hd tl ih =>
    obtain ⟨k1, v1⟩ := hd
    simp only [Obj.keys] at ih
    by_cases h1 : k1 = k
    · subst h1
      simp only [Obj.set, Obj.keys, beq_self_eq_true, if_true, List.map_cons, List.mem_cons]
      tauto
    · have hne : (k1 == k) = false := by simpa using h1
      simp only [Obj.set, Obj.keys, hne, List.map_cons, List.mem_cons, ih]
      simp only [Bool.false_eq_true, if_false, List.map_cons, List.mem_cons, ih]
      tauto

theorem Obj.lookup_isSome_iff {α : Type} (o : Obj α) (k : Str) :
    (∃ v, List.lookup k o = some v) ↔ k ∈ Obj.keys o := by
  induction o with
  | nil => simp only [List.lookup, Obj.keys, List.map_nil, List.not_mem_nil, iff_false,
      not_exists]; intro v h; cases h
  | cons hd tl ih =>
    obtain ⟨k1, v1⟩ := hd
    simp only [Obj.keys] at ih
    by_cases h : k = k1
    · subst h
      simp only [List.lookup, beq_self_eq_true, Obj.keys, List.map_cons, List.mem_cons,
        true_or, iff_true]
      exact ⟨v1, rfl⟩
    · have : (k == k1) = false := by simpa using h
      simp only [List.lookup, this, Obj.keys, List.map_cons, List.mem_cons, h, false_or, ih]

/-! ## The parser on three sentences -/

/-- C3: on the default sentence of `startServer`,
"a university has many programs and each program has many domains", `parser.parse`
returns a graph whose only keys are `university` and `programs`: the child is stored under
the plural that the sentence uses, and the clause behind `and each` has no article left, so
that the regular expression does not match it; the keys `program` and `domain` are absent. -/
theorem parse_default_sentence (pz : Pluralizer) :
    parse pz "a university has many programs and each program has many domains".toList =
      .ok [("university".toList,
             ⟨[(pz.plural "programs".toList, ⟨"hasMany".toList, "programs".toList⟩)]⟩),
           ("programs".toList, ⟨[]⟩)] := by
  rfl

/-- C4: on the valid sentence "a band has many members" `parser.parse` returns the empty
graph: the split on `and` cuts the name `band` in two, and neither piece matches. -/
theorem parse_band_sentence (pz : Pluralizer) :
    parse pz "a band has many members".toList = .ok [] := by
  rfl

/-- C5: on the sentence "a constructor has many items" `parser.parse` throws a
`TypeError`: `entities["constructor"]` is the member of `Object.prototype`, the entity is
not created, and the write to its `relationships` fails. -/
theorem parse_constructor_throws (pz : Pluralizer) :
    parse pz "a constructor has many items".toList = .error .typeError := by
  rfl

/-! ## The formatter -/

theorem Value.toStringJs_of_ne {v : Value} (h : v ≠ .undefined) :
    v.toStringJs = .ok v.text := by
  cases v with
  | str s => rfl
  | date ms text => rfl
  | undefined => exact absurd rfl h

theorem formatResource_some (pz : Pluralizer) (item : Record) (type : Str)
    (allEntities : EntityGraph) (h : item.id ≠ .undefined) :
    formatResource pz (some item) type allEntities =
      .ok (some
        { id := item.id.text
          type := type
          attributes := item.filter fun kv => kv.1 != "id".toList
          links := ⟨"/".toList ++ type ++ "/".toList ++ item.id.text⟩
          relationships :=
            match allEntities.read (pz.singular type) with
            | .own parentEntity => relationshipLinks type item.id parentEntity.relationships
            | _ => [] }) := by
  simp only [formatResource, Value.toStringJs_of_ne h]

theorem Obj.lookup_filter_ne {α : Type} (o : Obj α) (x k : Str) (hk : k ≠ x) :
    List.lookup k (List.filter (fun kv => kv.1 != x) o) = List.lookup k o := by
  induction o with
  | nil => rfl
  | cons hd tl ih =>
    obtain ⟨k1, v1⟩ := hd
    by_cases h1 : k1 = x
    · have hk1 : (k == k1) = false := by
        rw [h1]; simpa using hk
      have hf : (k1 != x) = false := by simp [h1]
      simp only [List.filter_cons, hf, List.lookup, hk1]
      exact ih
    · have hf : (k1 != x) = true := by simpa using h1
      simp only [List.filter_cons, hf, if_true, List.lookup]
      cases (k == k1) with
      | true => rfl
      | false => exact ih

/-- The entries that the writes of a loop leave in an object when the write under the name
`p` makes no own property, as the loop of `relationshipLinks` does for `__proto__`. -/
theorem foldl_set_unless_spec {α : Type} (p : Str) (f : Str → α) (names : List Str)
    (init : Obj α) :
    (∀ k, k ∈ Obj.keys
          (names.foldl (fun acc n => if n == p then acc else Obj.set acc n (f n)) init) ↔
        k ∈ Obj.keys init ∨ (k ∈ names ∧ k ≠ p)) ∧
    (∀ kv, kv ∈ names.foldl (fun acc n => if n == p then acc else Obj.set acc n (f n)) init →
        kv ∈ init ∨ kv.2 = f kv.1) := by
  induction names generalizing init with
  | nil =>
    refine ⟨fun k => ?_, fun kv h => Or.inl h⟩
    simp only [List.foldl_nil, List.not_mem_nil, false_and, or_false]
  | cons n rest ih =>
    by_cases hn : n = p
    · have hb : (n == p) = true := by simpa using hn
      obtain ⟨ih1, ih2⟩ := ih init
      refine ⟨fun k => ?_, fun kv h => ?_⟩
      · simp only [List.foldl_cons, hb, if_true, ih1, List.mem_cons]
        have hk : k = n → ¬ k ≠ p := fun h1 h2 => h2 (h1.trans hn)
        tauto
      · simp only [List.foldl_cons, hb, if_true] at h
        exact ih2 kv h
    · have hb : (n == p) = false := by simpa using hn
      obtain ⟨ih1, ih2⟩ := ih (Obj.set init n (f n))
      refine ⟨fun k => ?_, fun kv h => ?_⟩
      · simp only [List.foldl_cons, hb, Bool.false_eq_true, if_false, ih1, Obj.mem_keys_set,
          List.mem_cons]
        have hk : k = n → k ≠ p := fun h1 h2 => hn (h1.symm.trans h2)
        tauto
      · simp only [List.foldl_cons, hb, Bool.false_eq_true, if_false] at h
        rcases ih2 kv h with h' | h'
        · rcases Obj.mem_set init n (f n) kv h' with h2 | h2
          · exact Or.inl h2
          · right
            rw [h2]
        · exact Or.inr h'

/-- C10: `formatResource` of `null` is `null`, and for every record with an id it returns a
resource of type `T` whose link `self` is `/` + `T` + `/` + id. -/
theorem formatResource_null_and_self (pz : Pluralizer) (type : Str)
    (allEntities : EntityGraph) :
    formatResource pz none type allEntities = .ok none ∧
    ∀ item : Record, item.id ≠ .undefined →
      ∃ res, formatResource pz (some item) type allEntities = .ok (some res) ∧
        res.type = type ∧
        res.links.self = "/".toList ++ type ++ "/".toList ++ item.id.text := by
  refine ⟨rfl, fun item h => ⟨_, formatResource_some pz item type allEntities h, rfl, rfl⟩⟩

/-- C9: for every record with an id, the resource that `formatResource` returns has the id of
the record as a string, and its attributes are the fields of the record other than `id`, in
their order and with their values: a field is in the attributes exactly when it is a field of
the record and is not named `id`, and every name other than `id` reads the same in both. -/
theorem formatResource_attribute_split (pz : Pluralizer) (item : Record) (type : Str)
    (allEntities : EntityGraph) (h : item.id ≠ .undefined) :
    ∃ res, formatResource pz (some item) type allEntities = .ok (some res) ∧
      res.id = item.id.text ∧
      (∀ s, item.id = .str s → res.id = s) ∧
      (∀ kv, kv ∈ res.attributes ↔ kv ∈ item ∧ kv.1 ≠ "id".toList) ∧
      "id".toList ∉ Obj.keys res.attributes ∧
      List.Sublist res.attributes item ∧
      (∀ k, k ≠ "id".toList → List.lookup k res.attributes = List.lookup k item) := by
  refine ⟨_, formatResource_some pz item type allEntities h, rfl, ?_, ?_, ?_, ?_, ?_⟩
  · intro s hs
    simp only [hs, Value.text]
  · intro kv
    simp only [List.mem_filter, bne_iff_ne, ne_eq]
  · intro hmem
    simp only [Obj.keys, List.mem_map, List.mem_filter, bne_iff_ne, ne_eq] at hmem
    obtain ⟨kv, ⟨_, hne⟩, heq⟩ := hmem
    exact hne heq
  · exact List.filter_sublist _
  · intro k hk
    exact Obj.lookup_filter_ne item "id".toList k hk

/-- C8, amended: for every record with an id, the relationships of the resource that
`formatResource` returns for the type `T` have as keys exactly the relationship names of the
entity `G[singular(T)]` other than `__proto__`, none when the graph has no such entity, and
the entry of the name `k` holds the link `related` = `/` + `T` + `/` + id + `/` + `k`.  So
the keys are exactly the relationship names of that entity when none of them is
`__proto__`. -/
theorem formatResource_relationships (pz : Pluralizer) (item : Record) (type : Str)
    (allEntities : EntityGraph) (h : item.id ≠ .undefined) :
    ∃ res, formatResource pz (some item) type allEntities = .ok (some res) ∧
      (∀ k, k ∈ Obj.keys res.relationships ↔
        k ≠ "__proto__".toList ∧
          ∃ e, List.lookup (pz.singular type) allEntities = some e ∧
            k ∈ Obj.keys e.relationships) ∧
      (∀ k entry, (k, entry) ∈ res.relationships →
        entry.links.related =
          "/".toList ++ type ++ "/".toList ++ item.id.text ++ "/".toList ++ k) ∧
      ((∀ e, List.lookup (pz.singular type) allEntities = some e →
          "__proto__".toList ∉ Obj.keys e.relationships) →
        ∀ k, k ∈ Obj.keys res.relationships ↔
          ∃ e, List.lookup (pz.singular type) allEntities = some e ∧
            k ∈ Obj.keys e.relationships) := by
  have hkeys : ∀ k, k ∈ Obj.keys (match Obj.read allEntities (pz.singular type) with
      | .own parentEntity => relationshipLinks type item.id parentEntity.relationships
      | _ => []) ↔
      k ≠ "__proto__".toList ∧
        ∃ e, List.lookup (pz.singular type) allEntities = some e ∧
          k ∈ Obj.keys e.relationships := by
    intro k
    unfold Obj.read
    cases hl : List.lookup (pz.singular type) allEntities with
    | none =>
      constructor
      · intro hk
        cases hp : protoHas (pz.singular type) <;> simp only [hp] at hk <;>
          exact absurd hk (List.not_mem_nil _)
      · rintro ⟨_, e, he, _⟩
        cases he
    | some e =>
      simp only [relationshipLinks]
      rw [(foldl_set_unless_spec _ _ _ _).1 k]
      constructor
      · rintro (hk | ⟨hk, hne⟩)
        · exact absurd hk (List.not_mem_nil _)
        · exact ⟨hne, e, rfl, hk⟩
      · rintro ⟨hne, e', he', hk⟩
        cases he'
        exact Or.inr ⟨hk, hne⟩
  refine ⟨_, formatResource_some pz item type allEntities h, hkeys, ?_, ?_⟩
  · intro k entry
    show (k, entry) ∈ (match Obj.read allEntities (pz.singular type) with
      | .own parentEntity => relationshipLinks type item.id parentEntity.relationships
      | _ => []) → _
    unfold Obj.read
    cases hl : List.lookup (pz.singular type) allEntities with
    | none =>
      intro hk
      cases hp : protoHas (pz.singular type) <;> simp only [hp] at hk <;>
        exact absurd hk (List.not_mem_nil _)
    | some e =>
      simp only [relationshipLinks]
      intro hk
      rcases (foldl_set_unless_spec _ _ _ _).2 _ hk with h' | h'
      · exact absurd h' (List.not_mem_nil _)
      · simp only at h'
        rw [h']
  · intro hno k
    refine (hkeys k).trans ⟨fun hk => hk.2, fun hk => ⟨?_, hk⟩⟩
    obtain ⟨e, he, hke⟩ := hk
    intro hp
    exact hno e he (hp ▸ hke)

/-! ## The route handlers -/

theorem find?_eq_none_iff_ids (coll : List Record) (x : Str) :
    coll.find? (fun i => i.id == .str x) = none ↔ ∀ r ∈ coll, r.id ≠ .str x := by
  simp only [List.find?_eq_none, beq_iff_eq]

/-- C6: on a dataset in which `db[plural] || []` is the collection `coll`, the handler of
`GET /<plural>/:id` answers 404 with the one-error document titled `Resource Not Found`
exactly when no record of `coll` has the id `x`; otherwise it answers 200 with the
resource that `formatResource` makes of the first record whose id is `x`, and the id of that
resource is `x`. -/
theorem getItem_spec (pz : Pluralizer) (db : Dataset) (entities : EntityGraph)
    (plural x : Str) (coll : List Record) (hcoll : collectionOf db plural = .ok coll) :
    ((∀ r ∈ coll, r.id ≠ .str x) ↔
      getItem pz db entities plural x =
        .ok ⟨404, .errors [⟨"404".toList, "Resource Not Found".toList,
          notFoundDetail plural x⟩]⟩) ∧
    ((∃ r ∈ coll, r.id = .str x) →
      ∃ before item after res, coll = before ++ item :: after ∧
        (∀ r ∈ before, r.id ≠ .str x) ∧ item.id = .str x ∧
        formatResource pz (some item) plural entities = .ok (some res) ∧
        getItem pz db entities plural x = .ok ⟨200, .data (some res)⟩ ∧
        res.id = x) := by
  have key : ∀ item, coll.find? (fun i => i.id == .str x) = some item →
      ∃ before after res, coll = before ++ item :: after ∧
        (∀ r ∈ before, r.id ≠ .str x) ∧ item.id = .str x ∧
        formatResource pz (some item) plural entities = .ok (some res) ∧
        getItem pz db entities plural x = .ok ⟨200, .data (some res)⟩ ∧
        res.id = x := by
    intro item hfind
    have hid : item.id = .str x := by
      have := List.find?_some hfind
      simpa using this
    have hne : item.id ≠ .undefined := by rw [hid]; intro hc; cases hc
    obtain ⟨before, after, hsplit, hbefore⟩ := List.find?_eq_some.1 hfind |>.2
    refine ⟨before, after, _, hsplit, ?_, hid,
      formatResource_some pz item plural entities hne, ?_, ?_⟩
    · intro r hr
      have := hbefore r hr
      simpa using this
    · simp only [getItem, hcoll, hfind, formatResource_some pz item plural entities hne]
    · simp only [hid, Value.text]
  constructor
  · constructor
    · intro hnone
      have hfind := (find?_eq_none_iff_ids coll x).2 hnone
      simp only [getItem, hcoll, hfind, formatError]
      rfl
    · intro hres
      cases hfind : coll.find? (fun i => i.id == .str x) with
      | none => exact (find?_eq_none_iff_ids coll x).1 hfind
      | some item =>
        obtain ⟨_, _, res, _, _, _, _, hget, _⟩ := key item hfind
        rw [hget] at hres
        cases hres
  · rintro ⟨r, hr, hrid⟩
    cases hfind : coll.find? (fun i => i.id == .str x) with
    | none => exact absurd hrid ((find?_eq_none_iff_ids coll x).1 hfind r hr)
    | some item =>
      obtain ⟨before, after, res, h1, h2, h3, h4, h5, h6⟩ := key item hfind
      exact ⟨before, item, after, res, h1, h2, h3, h4, h5, h6⟩

theorem mapM_except_ok {ε α β : Type} (f : α → Except ε β) (g : α → β) (l : List α)
    (h : ∀ a ∈ l, f a = .ok (g a)) : l.mapM f = .ok (l.map g) := by
  induction l with
  | nil => rfl
  | cons a l ih =>
    have ha := h a (List.mem_cons_self _ _)
    have hl := ih fun b hb => h b (List.mem_cons_of_mem _ hb)
    simp only [List.mapM_cons, ha, hl, List.map_cons]
    rfl

theorem forall₂_map_of_forall {α β : Type} (R : α → β → Prop) (g : α → β) (l : List α)
    (h : ∀ a ∈ l, R a (g a)) : List.Forall₂ R l (l.map g) := by
  induction l with
  | nil => exact List.Forall₂.nil
  | cons a l ih =>
    exact List.Forall₂.cons (h a (List.mem_cons_self _ _))
      (ih fun b hb => h b (List.mem_cons_of_mem _ hb))

/-- The collection that `formatCollection` returns for records that all have an id. -/
theorem formatCollection_ok (pz : Pluralizer) (items : List Record) (type : Str)
    (allEntities : EntityGraph) (h : ∀ item ∈ items, item.id ≠ .undefined) :
    ∃ rs : List Resource, formatCollection pz items type allEntities = .ok (rs.map some) ∧
      List.Forall₂
        (fun item r => formatResource pz (some item) type allEntities = .ok (some r))
        items rs := by
  let g : Record → Resource := fun item =>
    { id := item.id.text
      type := type
      attributes := item.filter fun kv => kv.1 != "id".toList
      links := ⟨"/".toList ++ type ++ "/".toList ++ item.id.text⟩
      relationships :=
        match allEntities.read (pz.singular type) with
        | .own parentEntity => relationshipLinks type item.id parentEntity.relationships
        | _ => [] }
  have hg : ∀ item ∈ items, formatResource pz (some item) type allEntities =
      .ok (some (g item)) := fun item hi =>
    formatResource_some pz item type allEntities (h item hi)
  refine ⟨items.map g, ?_, forall₂_map_of_forall _ g items hg⟩
  rw [List.map_map]
  exact mapM_except_ok _ (some ∘ g) items hg

theorem hasParent_eq (parentIdField parentId : Str) (child : Record) :
    hasParent parentIdField parentId child =
      (List.lookup parentIdField child == some (.str parentId)) := by
  unfold hasParent Obj.read
  cases hl : List.lookup parentIdField child with
  | none =>
    cases hp : protoHas parentIdField <;> simp [hp]
  | some v =>
    by_cases hv : v = .str parentId
    · simp [hv]
    · simp [hv]

/-- C2: on a dataset in which `db[plural] || []` is `parents` and `db[childPlural] || []`
is `children`, the handler of `GET /<plural>/:id/<childPlural>` of the entity `P` answers
404 with the one-error document titled `Parent Resource Not Found` exactly when no record of
`parents` has the id `x`.  Otherwise its answer is the data that `formatCollection` makes
of the records of `children` whose field `P` + `Id` is `x`, in their order; when every
child has an id, it is a 200 with one resource for each of these records, in their order. -/
theorem getRelated_spec (pz : Pluralizer) (db : Dataset) (entities : EntityGraph)
    (entityName plural childPlural x : Str) (parents children : List Record)
    (hp : collectionOf db plural = .ok parents)
    (hc : collectionOf db childPlural = .ok children) :
    ((∀ p ∈ parents, p.id ≠ .str x) ↔
      getRelated pz db entities entityName plural childPlural x =
        .ok ⟨404, .errors [⟨"404".toList, "Parent Resource Not Found".toList,
          notFoundDetail plural x⟩]⟩) ∧
    ((∃ p ∈ parents, p.id = .str x) →
      getRelated pz db entities entityName plural childPlural x =
        (match formatCollection pz
            (children.filter fun c =>
              List.lookup (entityName ++ "Id".toList) c == some (.str x))
            childPlural entities with
          | .ok formattedData => .ok ⟨200, .collection formattedData⟩
          | .error e => .error e) ∧
      ((∀ c ∈ children, c.id ≠ .undefined) →
        ∃ rs : List Resource,
          getRelated pz db entities entityName plural childPlural x =
            .ok ⟨200, .collection (rs.map some)⟩ ∧
          List.Forall₂
            (fun c r => formatResource pz (some c) childPlural entities = .ok (some r))
            (children.filter fun c =>
              List.lookup (entityName ++ "Id".toList) c == some (.str x))
            rs)) := by
  have hfilter : children.filter (hasParent (entityName ++ "Id".toList) x) =
      children.filter fun c =>
        List.lookup (entityName ++ "Id".toList) c == some (.str x) := by
    congr 1
    funext c
    exact hasParent_eq _ _ c
  have hyes : (∃ p ∈ parents, p.id = .str x) →
      getRelated pz db entities entityName plural childPlural x =
        (match formatCollection pz
            (children.filter fun c =>
              List.lookup (entityName ++ "Id".toList) c == some (.str x))
            childPlural entities with
          | .ok formattedData => .ok ⟨200, .collection formattedData⟩
          | .error e => .error e) := by
    rintro ⟨p, hpm, hpid⟩
    have hany : (parents.any fun p => p.id == .str x) = true := by
      rw [List.any_eq_true]
      exact ⟨p, hpm, by simpa using hpid⟩
    simp only [getRelated, hp, hc, hany, if_true, hfilter]
  refine ⟨⟨fun hnone => ?_, fun hres => ?_⟩, fun hex => ⟨hyes hex, fun hids => ?_⟩⟩
  · have hany : (parents.any fun p => p.id == .str x) = false := by
      rw [List.any_eq_false]
      intro p hpm
      simpa using hnone p hpm
    simp only [getRelated, hp, hany, formatError]
    rfl
  · intro p hpm hpid
    have h := hyes ⟨p, hpm, hpid⟩
    rw [hres] at h
    cases hf : formatCollection pz
        (children.filter fun c =>
          List.lookup (entityName ++ "Id".toList) c == some (.str x))
        childPlural entities with
    | ok d => rw [hf] at h; cases h
    | error e => rw [hf] at h; cases h
  · obtain ⟨rs, hrs, hall⟩ := formatCollection_ok pz
      (children.filter fun c =>
        List.lookup (entityName ++ "Id".toList) c == some (.str x))
      childPlural entities
      (fun c hcm => hids c (List.mem_of_mem_filter hcm))
    refine ⟨rs, ?_, hall⟩
    rw [hyes hex, hrs]

/-! ## The generator -/

theorem Obj.set_lookup_self {α : Type} (o : Obj α) (k : Str) (v : α)
    (h : List.lookup k o = some v) : Obj.set o k v = o := by
  induction o with
  | nil => cases h
  | cons hd tl ih =>
    obtain ⟨k1, v1⟩ := hd
    by_cases h1 : k1 = k
    · subst h1
      simp only [List.lookup, beq_self_eq_true] at h
      cases h
      simp only [Obj.set, beq_self_eq_true, if_true]
    · have hne : (k1 == k) = false := by simpa using h1
      have hne' : (k == k1) = false := by simpa using Ne.symm h1
      simp only [List.lookup, hne'] at h
      simp only [Obj.set, hne, Bool.false_eq_true, if_false, ih h]

theorem Obj.map_set {α β : Type} (F : α → β) (o : Obj α) (k : Str) (v : α) :
    (Obj.set o k v).map (fun kc => (kc.1, F kc.2)) =
      Obj.set (o.map fun kc => (kc.1, F kc.2)) k (F v) := by
  induction o with
  | nil => rfl
  | cons hd tl ih =>
    obtain ⟨k1, v1⟩ := hd
    by_cases h1 : k1 = k
    · subst h1
      simp only [Obj.set, beq_self_eq_true, if_true, List.map_cons]
    · have hne : (k1 == k) = false := by simpa using h1
      simp only [Obj.set, hne, Bool.false_eq_true, if_false, List.map_cons, ih]

theorem Obj.lookup_map {α β : Type} (F : α → β) (o : Obj α) (k : Str) :
    List.lookup k (o.map fun kc => (kc.1, F kc.2)) = (List.lookup k o).map F := by
  induction o with
  | nil => rfl
  | cons hd tl ih =>
    obtain ⟨k1, v1⟩ := hd
    simp only [List.map_cons, List.lookup]
    cases (k == k1) with
    | true => rfl
    | false => exact ih

theorem Obj.mem_of_lookup {α : Type} (o : Obj α) (k : Str) (v : α)
    (h : List.lookup k o = some v) : (k, v) ∈ o := by
  induction o with
  | nil => cases h
  | cons hd tl ih =>
    obtain ⟨k1, v1⟩ := hd
    by_cases h1 : k = k1
    · subst h1
      simp only [List.lookup, beq_self_eq_true] at h
      cases h
      exact List.mem_cons_self _ _
    · have hne : (k == k1) = false := by simpa using h1
      simp only [List.lookup, hne] at h
      exact List.mem_cons_of_mem _ (ih h)

theorem Obj.read_own_iff {α : Type} (o : Obj α) (k : Str) (v : α) :
    Obj.read o k = .own v ↔ List.lookup k o = some v := by
  unfold Obj.read
  cases hl : List.lookup k o with
  | none => cases hp : protoHas k <;> simp [hp]
  | some w => simp

theorem idTable_lookup (db : Dataset) (k : Str) :
    List.lookup k (idTable db) = (List.lookup k db).map idsOf :=
  Obj.lookup_map idsOf db k

theorem idTable_keys (db : Dataset) : Obj.keys (idTable db) = Obj.keys db := by
  simp only [idTable, Obj.keys, List.map_map]
  rfl

theorem field_ne_id (parentName : Str) : "id".toList ≠ parentName ++ "Id".toList := by
  intro h
  have h1 : ['d', 'i'] = 'd' :: 'I' :: parentName.reverse := by
    have h2 := congrArg List.reverse h
    rw [List.reverse_append] at h2
    exact h2
  injection h1 with _ h3
  injection h3 with h4 _
  revert h4
  decide

/-- What `linkChildren` returns: every child with one property written. -/
theorem linkChildren_spec (fk : Faker) (db : Dataset) (parentPlural parentIdField : Str)
    (children : List Record) (k : Nat) (children' : List Record)
    (h : linkChildren fk db parentPlural parentIdField children k = .ok children') :
    List.Forall₂
      (fun c c' => ∃ parents p, List.lookup parentPlural db = some parents ∧ p ∈ parents ∧
        c' = Obj.set c parentIdField p.id)
      children children' := by
  induction children generalizing k children' with
  | nil =>
    simp only [linkChildren] at h
    cases h
    exact List.Forall₂.nil
  | cons c rest ih =>
    simp only [linkChildren] at h
    cases h1 : linkChild fk db parentPlural parentIdField k c with
    | error e => rw [h1] at h; cases h
    | ok c' =>
      rw [h1] at h
      cases h2 : linkChildren fk db parentPlural parentIdField rest (k + 1) with
      | error e => rw [h2] at h; cases h
      | ok rest' =>
        rw [h2] at h
        cases h
        refine List.Forall₂.cons ?_ (ih (k + 1) rest' h2)
        unfold linkChild at h1
        cases h3 : Obj.read db parentPlural with
        | inherited => rw [h3] at h1; cases h1
        | undefined => rw [h3] at h1; cases h1
        | own parents =>
          rw [h3] at h1
          simp only at h1
          cases h4 : parents.get? (fk.random k % parents.length) with
          | none => rw [h4] at h1; cases h1
          | some p =>
            rw [h4] at h1
            cases h1
            exact ⟨parents, p, (Obj.read_own_iff _ _ _).1 h3, List.get?_mem h4, rfl⟩

theorem linkChildren_ids (fk : Faker) (db : Dataset) (parentPlural parentName : Str)
    (children : List Record) (k : Nat) (children' : List Record)
    (h : linkChildren fk db parentPlural (parentName ++ "Id".toList) children k =
      .ok children') :
    idsOf children' = idsOf children := by
  have hspec := linkChildren_spec fk db parentPlural _ children k children' h
  clear h
  induction hspec with
  | nil => rfl
  | cons hc _ ih =>
    obtain ⟨_, p, _, _, hc'⟩ := hc
    simp only [idsOf, List.map_cons] at ih ⊢
    rw [ih, hc', Obj.lookup_set, if_neg (field_ne_id parentName)]

theorem Obj.read_undefined {α : Type} (o : Obj α) (k : Str) (h : Obj.read o k = .undefined) :
    List.lookup k o = none ∧ protoHas k = false := by
  unfold Obj.read at h
  cases hl : List.lookup k o with
  | none =>
    rw [hl] at h
    cases hp : protoHas k with
    | true => simp [hp] at h
    | false => exact ⟨rfl, rfl⟩
  | some w => rw [hl] at h; cases h

theorem forall₂_mem_right {α β : Type} {R : α → β → Prop} {l : List α} {l' : List β}
    (h : List.Forall₂ R l l') : ∀ b ∈ l', ∃ a ∈ l, R a b := by
  induction h with
  | nil => intro b hb; cases hb
  | cons hab _ ih =>
    intro b hb
    rcases List.mem_cons.1 hb with hb | hb
    · subst hb
      exact ⟨_, List.mem_cons_self _ _, hab⟩
    · obtain ⟨a, ha, hR⟩ := ih b hb
      exact ⟨a, List.mem_cons_of_mem _ ha, hR⟩

theorem id_of_goodTable (T : Obj (List (Option Value))) (hgood : GoodTable T)
    (db : Dataset) (hT : idTable db = T) (K : Str) (parents : List Record)
    (hl : List.lookup K db = some parents) (p : Record) (hp : p ∈ parents) :
    List.lookup K T = some (idsOf parents) ∧ some p.id ∈ idsOf parents := by
  have hlT : List.lookup K T = some (idsOf parents) := by
    rw [← hT, idTable_lookup, hl]
    rfl
  refine ⟨hlT, ?_⟩
  have hmem : List.lookup "id".toList p ∈ idsOf parents := List.mem_map_of_mem _ hp
  obtain ⟨s, hs⟩ := (hgood _ (Obj.mem_of_lookup T K _ hlT)).2 _ hmem
  have : p.id = .str s := by
    unfold Record.id
    rw [hs]
    rfl
  rw [this, ← hs]
  exact hmem

/-- One relationship of the second pass: the ids stay as they are, what was linked stays
linked, and the relationship itself is linked. -/
theorem linkRelationship_step (pz : Pluralizer) (fk : Faker) (P : Str) (st : Dataset × Nat)
    (C : Str) (st' : Dataset × Nat) (T : Obj (List (Option Value)))
    (hT : idTable st.1 = T) (hgood : GoodTable T)
    (h : linkRelationship pz fk P st C = .ok st') :
    idTable st'.1 = T ∧
    ∀ P' C', (Linked pz T st.1 P' C' ∨ (P' = P ∧ C' = C)) → Linked pz T st'.1 P' C' := by
  unfold linkRelationship at h
  cases hr : Obj.read st.1 C with
  | inherited => rw [hr] at h; cases h
  | undefined =>
    rw [hr] at h
    cases h
    refine ⟨hT, fun P' C' hor => ?_⟩
    rcases hor with hlinked | ⟨_, hC⟩
    · exact hlinked
    · intro coll hcoll
      rw [hC, (Obj.read_undefined _ _ hr).1] at hcoll
      cases hcoll
  | own children =>
    rw [hr] at h
    simp only at h
    have hlC : List.lookup C st.1 = some children := (Obj.read_own_iff _ _ _).1 hr
    cases hl : linkChildren fk st.1 (pz.plural P) (P ++ "Id".toList) children st.2 with
    | error e => rw [hl] at h; cases h
    | ok children' =>
      rw [hl] at h
      cases h
      have hids := linkChildren_ids fk st.1 (pz.plural P) P children st.2 children' hl
      have hspec := linkChildren_spec fk st.1 (pz.plural P) _ children st.2 children' hl
      constructor
      · show idTable (Obj.set st.1 C children') = T
        unfold idTable
        rw [Obj.map_set, hids]
        have : List.lookup C (idTable st.1) = some (idsOf children) := by
          rw [idTable_lookup, hlC]; rfl
        unfold idTable at this hT
        rw [Obj.set_lookup_self _ _ _ this, hT]
      · intro P' C' hor coll' hcoll' r' hr'
        change List.lookup C' (Obj.set st.1 C children') = some coll' at hcoll'
        rw [Obj.lookup_set] at hcoll'
        by_cases hC : C' = C
        · rw [if_pos hC] at hcoll'
          cases hcoll'
          obtain ⟨c, hc, parents, p, hlp, hpm, hr'eq⟩ := forall₂_mem_right hspec r' hr'
          rw [hr'eq, Obj.lookup_set]
          by_cases hP : P' = P
          · subst hP
            rw [if_pos rfl]
            obtain ⟨h1, h2⟩ := id_of_goodTable T hgood st.1 hT _ parents hlp p hpm
            exact ⟨p.id, rfl, idsOf parents, h1, h2⟩
          · have hne : P' ++ "Id".toList ≠ P ++ "Id".toList := fun heq =>
              hP (List.append_cancel_right heq)
            rw [if_neg hne]
            rcases hor with hlinked | ⟨hPP, _⟩
            · exact hlinked children (hC ▸ hlC) c hc
            · exact absurd hPP hP
        · rw [if_neg hC] at hcoll'
          rcases hor with hlinked | ⟨_, hCC⟩
          · exact hlinked coll' hcoll' r' hr'
          · exact absurd hCC hC

theorem foldlM_cons_ok {ε σ α : Type} {f : σ → α → Except ε σ} {a : α} {l : List α}
    {s s' : σ} (h : (a :: l).foldlM f s = .ok s') :
    ∃ s1, f s a = .ok s1 ∧ l.foldlM f s1 = .ok s' := by
  rw [List.foldlM_cons] at h
  cases h1 : f s a with
  | error e => rw [h1] at h; cases h
  | ok s1 => rw [h1] at h; exact ⟨s1, rfl, h⟩

theorem foldlM_cons_of_ok {ε σ α : Type} {f : σ → α → Except ε σ} {a : α} {l : List α}
    {s s1 : σ} (h : f s a = .ok s1) : (a :: l).foldlM f s = l.foldlM f s1 := by
  rw [List.foldlM_cons, h]
  rfl

/-- The relationships of one entity in the second pass. -/
theorem linkRelationships_fold (pz : Pluralizer) (fk : Faker) (P : Str)
    (T : Obj (List (Option Value))) (hgood : GoodTable T) (cs : List Str) :
    ∀ (st st' : Dataset × Nat) (Q : Str → Str → Prop), idTable st.1 = T →
      (∀ P' C', Q P' C' → Linked pz T st.1 P' C') →
      cs.foldlM (linkRelationship pz fk P) st = .ok st' →
      idTable st'.1 = T ∧
      ∀ P' C', (Q P' C' ∨ (P' = P ∧ C' ∈ cs)) → Linked pz T st'.1 P' C' := by
  induction cs with
  | nil =>
    intro st st' Q hT hQ h
    cases h
    refine ⟨hT, fun P' C' hor => ?_⟩
    rcases hor with hq | ⟨_, hc⟩
    · exact hQ P' C' hq
    · cases hc
  | cons C rest ih =>
    intro st st' Q hT hQ h
    obtain ⟨s1, hstep, hrest⟩ := foldlM_cons_ok h
    obtain ⟨hT1, hL1⟩ := linkRelationship_step pz fk P st C s1 T hT hgood hstep
    obtain ⟨hT2, hL2⟩ := ih s1 st' (fun P' C' => Q P' C' ∨ (P' = P ∧ C' = C)) hT1
      (fun P' C' hor => hL1 P' C' (hor.imp_left (hQ P' C'))) hrest
    refine ⟨hT2, fun P' C' hor => hL2 P' C' ?_⟩
    rcases hor with hq | ⟨hp, hc⟩
    · exact Or.inl (Or.inl hq)
    · rcases List.mem_cons.1 hc with hc | hc
      · exact Or.inl (Or.inr ⟨hp, hc⟩)
      · exact Or.inr ⟨hp, hc⟩

/-- The entities of the second pass. -/
theorem linkEntities_fold (pz : Pluralizer) (fk : Faker) (entities : EntityGraph)
    (T : Obj (List (Option Value))) (hgood : GoodTable T) (ps : List Str) :
    ∀ (st st' : Dataset × Nat) (Q : Str → Str → Prop), idTable st.1 = T →
      (∀ P' C', Q P' C' → Linked pz T st.1 P' C') →
      ps.foldlM (linkEntity pz fk entities) st = .ok st' →
      idTable st'.1 = T ∧
      ∀ P' C', (Q P' C' ∨ (P' ∈ ps ∧ ∃ e, List.lookup P' entities = some e ∧
        C' ∈ Obj.keys e.relationships)) → Linked pz T st'.1 P' C' := by
  induction ps with
  | nil =>
    intro st st' Q hT hQ h
    cases h
    refine ⟨hT, fun P' C' hor => ?_⟩
    rcases hor with hq | ⟨hp, _⟩
    · exact hQ P' C' hq
    · cases hp
  | cons P rest ih =>
    intro st st' Q hT hQ h
    obtain ⟨s1, hstep, hrest⟩ := foldlM_cons_ok h
    unfold linkEntity at hstep
    cases hr : Obj.read entities P with
    | inherited => rw [hr] at hstep; cases hstep
    | undefined => rw [hr] at hstep; cases hstep
    | own e =>
      rw [hr] at hstep
      simp only at hstep
      have hle : List.lookup P entities = some e := (Obj.read_own_iff _ _ _).1 hr
      obtain ⟨hT1, hL1⟩ := linkRelationships_fold pz fk P T hgood _ st s1 Q hT hQ hstep
      obtain ⟨hT2, hL2⟩ := ih s1 st'
        (fun P' C' => Q P' C' ∨ (P' = P ∧ C' ∈ Obj.keys e.relationships)) hT1 hL1 hrest
      refine ⟨hT2, fun P' C' hor => hL2 P' C' ?_⟩
      rcases hor with hq | ⟨hp, e', he', hc⟩
      · exact Or.inl (Or.inl hq)
      · rcases List.mem_cons.1 hp with hp | hp
        · subst hp
          rw [hle] at he'
          cases he'
          exact Or.inl (Or.inr ⟨rfl, hc⟩)
        · exact Or.inr ⟨hp, e', he', hc⟩

theorem createItems_fresh (fk : Faker) (n : Nat) :
    FreshCollection ((List.range MOCK_ITEM_COUNT).map fun i => newItem fk (n + i)) := by
  refine ⟨by simp only [List.length_map, List.length_range], fun r hr => ?_⟩
  obtain ⟨i, _, hi⟩ := List.mem_map.1 hr
  exact ⟨fk.uuid (n + i), by rw [← hi]; rfl⟩

/-- The first pass. -/
theorem firstPass_spec (pz : Pluralizer) (fk : Faker) (names : List Str) :
    ∀ st : Dataset × Nat, (∀ kc ∈ st.1, FreshCollection kc.2) →
      (∀ kc ∈ (names.foldl (createItems pz fk) st).1, FreshCollection kc.2) ∧
      ∀ k, k ∈ Obj.keys (names.foldl (createItems pz fk) st).1 ↔
        k ∈ Obj.keys st.1 ∨ k ∈ names.map pz.plural := by
  induction names with
  | nil =>
    intro st h
    refine ⟨h, fun k => ?_⟩
    simp only [List.foldl_nil, List.map_nil, List.not_mem_nil, or_false]
  | cons E rest ih =>
    intro st h
    have h1 : ∀ kc ∈ (createItems pz fk st E).1, FreshCollection kc.2 := by
      intro kc hkc
      rcases Obj.mem_set _ _ _ kc hkc with h' | h'
      · exact h kc h'
      · rw [h']
        exact createItems_fresh fk st.2
    obtain ⟨ih1, ih2⟩ := ih (createItems pz fk st E) h1
    refine ⟨ih1, fun k => ?_⟩
    rw [List.foldl_cons, ih2]
    show k ∈ Obj.keys (Obj.set st.1 _ _) ∨ _ ↔ _
    rw [Obj.mem_keys_set, List.map_cons, List.mem_cons]
    tauto

theorem goodTable_of_fresh (db : Dataset) (h : ∀ kc ∈ db, FreshCollection kc.2) :
    GoodTable (idTable db) := by
  intro kc hkc
  obtain ⟨kc0, hkc0, heq⟩ := List.mem_map.1 hkc
  obtain ⟨hlen, hids⟩ := h kc0 hkc0
  rw [← heq]
  refine ⟨by simp only [idsOf, List.length_map, hlen], fun o ho => ?_⟩
  obtain ⟨r, hr, hro⟩ := List.mem_map.1 ho
  obtain ⟨s, hs⟩ := hids r hr
  exact ⟨s, by rw [← hro, hs]⟩

/-- What holds of every dataset that `generate` returns, in terms of the table `T` of the
ids that the first pass has made. -/
theorem generate_inv (pz : Pluralizer) (fk : Faker) (entities : EntityGraph) (db : Dataset)
    (h : generate pz fk entities = .ok db) :
    ∃ T, idTable db = T ∧ GoodTable T ∧
      (∀ k, k ∈ Obj.keys T ↔ k ∈ (Obj.keys entities).map pz.plural) ∧
      ∀ P e C, List.lookup P entities = some e → C ∈ Obj.keys e.relationships →
        Linked pz T db P C := by
  unfold generate at h
  simp only at h
  obtain ⟨hfresh, hkeys⟩ := firstPass_spec pz fk (Obj.keys entities) ([], 0)
    (fun kc hkc => by cases hkc)
  have hgood := goodTable_of_fresh _ hfresh
  cases hl : (Obj.keys entities).foldlM (linkEntity pz fk entities)
      ((Obj.keys entities).foldl (createItems pz fk) ([], 0)) with
  | error e => rw [hl] at h; cases h
  | ok st =>
    rw [hl] at h
    cases h
    obtain ⟨hT, hL⟩ := linkEntities_fold pz fk entities _ hgood (Obj.keys entities) _ st
      (fun _ _ => False) rfl (fun _ _ hf => hf.elim) hl
    refine ⟨_, hT, hgood, fun k => ?_, fun P e C hP hC => hL P C (Or.inr ⟨?_, e, hP, hC⟩)⟩
    · rw [idTable_keys, hkeys]
      simp only [Obj.keys, List.map_nil, List.not_mem_nil, false_or]
    · exact (Obj.lookup_isSome_iff entities P).1 ⟨e, hP⟩

theorem Obj.read_inherited {α : Type} (o : Obj α) (k : Str) (h : Obj.read o k = .inherited) :
    List.lookup k o = none ∧ protoHas k = true := by
  unfold Obj.read at h
  cases hl : List.lookup k o with
  | none =>
    rw [hl] at h
    cases hp : protoHas k with
    | true => exact ⟨rfl, rfl⟩
    | false => simp [hp] at h
  | some w => rw [hl] at h; cases h

theorem linkChildren_ok (fk : Faker) (db : Dataset) (parentPlural parentIdField : Str)
    (parents : List Record) (hl : List.lookup parentPlural db = some parents)
    (hlen : 0 < parents.length) (children : List Record) :
    ∀ k, ∃ children', linkChildren fk db parentPlural parentIdField children k =
      .ok children' := by
  induction children with
  | nil => exact fun _ => ⟨[], rfl⟩
  | cons c rest ih =>
    intro k
    obtain ⟨rest', hrest⟩ := ih (k + 1)
    have hlt := Nat.mod_lt (fk.random k) hlen
    have hchild : linkChild fk db parentPlural parentIdField k c =
        .ok (Obj.set c parentIdField (parents.get ⟨_, hlt⟩).id) := by
      unfold linkChild
      rw [(Obj.read_own_iff _ _ _).2 hl]
      simp only [List.get?_eq_get hlt]
    exact ⟨Obj.set c parentIdField (parents.get ⟨_, hlt⟩).id :: rest',
      by simp only [linkChildren, hchild, hrest]⟩

theorem linkRelationship_ok (pz : Pluralizer) (fk : Faker) (P : Str) (st : Dataset × Nat)
    (C : Str) (T : Obj (List (Option Value))) (hT : idTable st.1 = T) (hgood : GoodTable T)
    (hP : pz.plural P ∈ Obj.keys T) (hC : protoHas C = true → C ∈ Obj.keys T) :
    ∃ st', linkRelationship pz fk P st C = .ok st' := by
  unfold linkRelationship
  cases hr : Obj.read st.1 C with
  | undefined => exact ⟨st, rfl⟩
  | inherited =>
    obtain ⟨hnone, hproto⟩ := Obj.read_inherited _ _ hr
    have hmem := hC hproto
    rw [← hT, idTable_keys] at hmem
    obtain ⟨v, hv⟩ := (Obj.lookup_isSome_iff st.1 C).2 hmem
    rw [hnone] at hv
    cases hv
  | own children =>
    rw [← hT, idTable_keys] at hP
    obtain ⟨parents, hparents⟩ := (Obj.lookup_isSome_iff st.1 _).2 hP
    have hlen : 0 < parents.length := by
      have hlT : List.lookup (pz.plural P) T = some (idsOf parents) := by
        rw [← hT, idTable_lookup, hparents]; rfl
      have := (hgood _ (Obj.mem_of_lookup T _ _ hlT)).1
      simp only [idsOf, List.length_map] at this
      rw [this]
      decide
    obtain ⟨children', hch⟩ := linkChildren_ok fk st.1 (pz.plural P) (P ++ "Id".toList)
      parents hparents hlen children st.2
    exact ⟨(Obj.set st.1 C children', st.2 + children.length), by simp only [hch]⟩

theorem linkRelationships_ok (pz : Pluralizer) (fk : Faker) (P : Str)
    (T : Obj (List (Option Value))) (hgood : GoodTable T) (hP : pz.plural P ∈ Obj.keys T)
    (cs : List Str) :
    ∀ st : Dataset × Nat, idTable st.1 = T →
      (∀ C ∈ cs, protoHas C = true → C ∈ Obj.keys T) →
      ∃ st', cs.foldlM (linkRelationship pz fk P) st = .ok st' ∧ idTable st'.1 = T := by
  induction cs with
  | nil => exact fun st hT _ => ⟨st, rfl, hT⟩
  | cons C rest ih =>
    intro st hT hcs
    obtain ⟨s1, hstep⟩ := linkRelationship_ok pz fk P st C T hT hgood hP
      (hcs C (List.mem_cons_self _ _))
    have hT1 := (linkRelationship_step pz fk P st C s1 T hT hgood hstep).1
    obtain ⟨st', hfold, hT'⟩ := ih s1 hT1 fun C' hC' => hcs C' (List.mem_cons_of_mem _ hC')
    exact ⟨st', by rw [foldlM_cons_of_ok hstep, hfold], hT'⟩

theorem linkEntities_ok (pz : Pluralizer) (fk : Faker) (entities : EntityGraph)
    (T : Obj (List (Option Value))) (hgood : GoodTable T)
    (hkeys : ∀ k, k ∈ Obj.keys T ↔ k ∈ (Obj.keys entities).map pz.plural)
    (hlink : Linkable pz entities) (ps : List Str) :
    ∀ st : Dataset × Nat, idTable st.1 = T → (∀ P ∈ ps, P ∈ Obj.keys entities) →
      ∃ st', ps.foldlM (linkEntity pz fk entities) st = .ok st' := by
  induction ps with
  | nil => exact fun st _ _ => ⟨st, rfl⟩
  | cons P rest ih =>
    intro st hT hps
    have hPk := hps P (List.mem_cons_self _ _)
    obtain ⟨e, he⟩ := (Obj.lookup_isSome_iff entities P).2 hPk
    have hcs : ∀ C ∈ Obj.keys e.relationships, protoHas C = true → C ∈ Obj.keys T := by
      intro C hC hproto
      have := hlink P hPk C (by rw [he]; exact hC) hproto
      exact (hkeys C).2 this
    obtain ⟨s1, hfold, hT1⟩ := linkRelationships_ok pz fk P T hgood
      ((hkeys _).2 (List.mem_map_of_mem _ hPk)) _ st hT hcs
    have hstep : linkEntity pz fk entities st P = .ok s1 := by
      unfold linkEntity
      rw [(Obj.read_own_iff _ _ _).2 he]
      exact hfold
    obtain ⟨st', hrest⟩ := ih s1 hT1 fun P' hP' => hps P' (List.mem_cons_of_mem _ hP')
    exact ⟨st', by rw [foldlM_cons_of_ok hstep, hrest]⟩

/-- The function `generate` returns a dataset on every graph that is `Linkable`. -/
theorem generate_total (pz : Pluralizer) (fk : Faker) (entities : EntityGraph)
    (hlink : Linkable pz entities) : ∃ db, generate pz fk entities = .ok db := by
  obtain ⟨hfresh, hkeys⟩ := firstPass_spec pz fk (Obj.keys entities) ([], 0)
    (fun kc hkc => by cases hkc)
  have hgood := goodTable_of_fresh _ hfresh
  have hkeys' : ∀ k, k ∈ Obj.keys (idTable
      ((Obj.keys entities).foldl (createItems pz fk) ([], 0)).1) ↔
      k ∈ (Obj.keys entities).map pz.plural := by
    intro k
    rw [idTable_keys, hkeys]
    simp only [Obj.keys, List.map_nil, List.not_mem_nil, false_or]
  obtain ⟨st, hst⟩ := linkEntities_ok pz fk entities _ hgood hkeys' hlink (Obj.keys entities)
    _ rfl (fun _ h => h)
  exact ⟨st.1, by unfold generate; simp only [hst]⟩

/-- C1: in every dataset that `generate` returns, for every entity `P` of the graph and
every relationship name `C` of `P` under which the dataset has a collection, every record of
that collection has a field `P` + `Id` whose value is the id of a record of the collection
under the plural of `P`; and `generate` returns a dataset on every `Linkable` graph. -/
theorem generate_referential_integrity (pz : Pluralizer) (fk : Faker)
    (entities : EntityGraph) :
    (Linkable pz entities → ∃ db, generate pz fk entities = .ok db) ∧
    ∀ db, generate pz fk entities = .ok db →
      ∀ P e, List.lookup P entities = some e → ∀ C ∈ Obj.keys e.relationships,
        ∀ coll, List.lookup C db = some coll → ∀ r ∈ coll,
          ∃ v, List.lookup (P ++ "Id".toList) r = some v ∧
            ∃ parents, List.lookup (pz.plural P) db = some parents ∧
              ∃ p ∈ parents, List.lookup "id".toList p = some v ∧ p.id = v := by
  refine ⟨generate_total pz fk entities, fun db h P e hP C hC coll hcoll r hr => ?_⟩
  obtain ⟨T, hT, _, _, hL⟩ := generate_inv pz fk entities db h
  obtain ⟨v, hv, pids, hpids, hmem⟩ := hL P e C hP hC coll hcoll r hr
  refine ⟨v, hv, ?_⟩
  rw [← hT, idTable_lookup] at hpids
  cases hpar : List.lookup (pz.plural P) db with
  | none => rw [hpar] at hpids; cases hpids
  | some parents =>
    rw [hpar] at hpids
    cases hpids
    obtain ⟨p, hp, hpv⟩ := List.mem_map.1 hmem
    exact ⟨parents, rfl, p, hp, hpv, by unfold Record.id; rw [hpv]; rfl⟩

/-- C7: every dataset that `generate` returns has a collection under the plural of every
entity of the graph, and every collection of the dataset has exactly
`MOCK_ITEM_COUNT` = 20 records, whatever plurals the entity names share; and `generate`
returns a dataset on every `Linkable` graph. -/
theorem generate_collection_size (pz : Pluralizer) (fk : Faker) (entities : EntityGraph) :
    (Linkable pz entities → ∃ db, generate pz fk entities = .ok db) ∧
    ∀ db, generate pz fk entities = .ok db →
      (∀ E ∈ Obj.keys entities, ∃ c, List.lookup (pz.plural E) db = some c ∧
        c.length = 20) ∧
      (∀ kc ∈ db, kc.2.length = MOCK_ITEM_COUNT) ∧ MOCK_ITEM_COUNT = 20 := by
  refine ⟨generate_total pz fk entities, fun db h => ?_⟩
  obtain ⟨T, hT, hgood, hkeys, _⟩ := generate_inv pz fk entities db h
  have hsize : ∀ kc ∈ db, kc.2.length = MOCK_ITEM_COUNT := by
    intro kc hkc
    have hmem : (kc.1, idsOf kc.2) ∈ T := by
      rw [← hT]
      exact List.mem_map_of_mem (fun kc => (kc.1, idsOf kc.2)) hkc
    have := (hgood _ hmem).1
    simpa only [idsOf, List.length_map] using this
  refine ⟨fun E hE => ?_, hsize, rfl⟩
  have hk : pz.plural E ∈ Obj.keys db := by
    rw [← idTable_keys, hT, hkeys]
    exact List.mem_map_of_mem _ hE
  obtain ⟨c, hc⟩ := (Obj.lookup_isSome_iff db _).2 hk
  exact ⟨c, hc, hsize _ (Obj.mem_of_lookup db _ _ hc)⟩

/-! ## The sample run -/

theorem sampleGraph_parsed :
    parse samplePluralizer
      "a university has many programs and a program has many domains".toList =
        .ok sampleGraph := by
  rfl

theorem sampleDb_generated :
    generate samplePluralizer sampleFaker sampleGraph = .ok sampleDb := by
  rfl

theorem sampleGraph_linkable : Linkable samplePluralizer sampleGraph := by
  unfold Linkable
  decide

theorem sampleProgram_eq :
    sampleProgram =
      [("id".toList, .str "40".toList), ("name".toList, .str "company 40".toList),
       ("createdAt".toList, .date 1700000000040 "Tue Nov 14 2023".toList),
       ("universityId".toList, .str "3".toList)] := by
  rfl

/-- Witness of C1 on the sample run: the first program has a `universityId` that is the id of
a university. -/
theorem generate_referential_integrity_witness :
    Linkable samplePluralizer sampleGraph ∧
    (∃ db, generate samplePluralizer sampleFaker sampleGraph = .ok db) ∧
    generate samplePluralizer sampleFaker sampleGraph = .ok sampleDb ∧
    sampleProgram ∈ samplePrograms ∧
    ∃ v, List.lookup ("university".toList ++ "Id".toList) sampleProgram = some v ∧
      ∃ parents,
        List.lookup (samplePluralizer.plural "university".toList) sampleDb = some parents ∧
        ∃ p ∈ parents, List.lookup "id".toList p = some v ∧ p.id = v :=
  ⟨sampleGraph_linkable,
    (generate_referential_integrity samplePluralizer sampleFaker sampleGraph).1
      sampleGraph_linkable,
    sampleDb_generated,
    by decide,
    (generate_referential_integrity samplePluralizer sampleFaker sampleGraph).2 sampleDb
      sampleDb_generated "university".toList
      ⟨[("programs".toList, ⟨"hasMany".toList, "programs".toList⟩)]⟩ rfl
      "programs".toList (by decide) samplePrograms rfl sampleProgram (by decide)⟩

/-- Witness of C7 on the sample run, in which `program` and `programs` share a plural. -/
theorem generate_collection_size_witness :
    Linkable samplePluralizer sampleGraph ∧
    (∃ db, generate samplePluralizer sampleFaker sampleGraph = .ok db) ∧
    generate samplePluralizer sampleFaker sampleGraph = .ok sampleDb ∧
    (∀ E ∈ Obj.keys sampleGraph,
      ∃ c, List.lookup (samplePluralizer.plural E) sampleDb = some c ∧ c.length = 20) ∧
    (∀ kc ∈ sampleDb, kc.2.length = MOCK_ITEM_COUNT) ∧ MOCK_ITEM_COUNT = 20 :=
  ⟨sampleGraph_linkable,
    (generate_collection_size samplePluralizer sampleFaker sampleGraph).1
      sampleGraph_linkable,
    sampleDb_generated,
    (generate_collection_size samplePluralizer sampleFaker sampleGraph).2 sampleDb
      sampleDb_generated⟩

/-- Witness of C10 on the first program of the sample run. -/
theorem formatResource_null_and_self_witness :
    sampleProgram.id ≠ .undefined ∧
    formatResource samplePluralizer none "programs".toList sampleGraph = .ok none ∧
    ∃ res, formatResource samplePluralizer (some sampleProgram) "programs".toList
        sampleGraph = .ok (some res) ∧
      res.type = "programs".toList ∧
      res.links.self = "/".toList ++ "programs".toList ++ "/".toList ++ sampleProgram.id.text :=
  ⟨by decide,
    (formatResource_null_and_self samplePluralizer "programs".toList sampleGraph).1,
    (formatResource_null_and_self samplePluralizer "programs".toList sampleGraph).2
      sampleProgram (by decide)⟩

/-- Witness of C9 on the first program of the sample run. -/
theorem formatResource_attribute_split_witness :
    sampleProgram.id ≠ .undefined ∧
    ∃ res, formatResource samplePluralizer (some sampleProgram) "programs".toList
        sampleGraph = .ok (some res) ∧
      res.id = sampleProgram.id.text ∧
      (∀ s, sampleProgram.id = .str s → res.id = s) ∧
      (∀ kv, kv ∈ res.attributes ↔ kv ∈ sampleProgram ∧ kv.1 ≠ "id".toList) ∧
      "id".toList ∉ Obj.keys res.attributes ∧
      List.Sublist res.attributes sampleProgram ∧
      (∀ k, k ≠ "id".toList → List.lookup k res.attributes = List.lookup k sampleProgram) :=
  ⟨by decide,
    formatResource_attribute_split samplePluralizer sampleProgram "programs".toList
      sampleGraph (by decide)⟩

/-- Witness of C8 on the first program of the sample run. -/
theorem formatResource_relationships_witness :
    sampleProgram.id ≠ .undefined ∧
    ∃ res, formatResource samplePluralizer (some sampleProgram) "programs".toList
        sampleGraph = .ok (some res) ∧
      (∀ k, k ∈ Obj.keys res.relationships ↔
        k ≠ "__proto__".toList ∧
          ∃ e, List.lookup (samplePluralizer.singular "programs".toList) sampleGraph =
              some e ∧
            k ∈ Obj.keys e.relationships) ∧
      (∀ k entry, (k, entry) ∈ res.relationships →
        entry.links.related =
          "/".toList ++ "programs".toList ++ "/".toList ++ sampleProgram.id.text ++
            "/".toList ++ k) ∧
      ((∀ e, List.lookup (samplePluralizer.singular "programs".toList) sampleGraph = some e →
          "__proto__".toList ∉ Obj.keys e.relationships) →
        ∀ k, k ∈ Obj.keys res.relationships ↔
          ∃ e, List.lookup (samplePluralizer.singular "programs".toList) sampleGraph =
              some e ∧
            k ∈ Obj.keys e.relationships) :=
  ⟨by decide,
    formatResource_relationships samplePluralizer sampleProgram "programs".toList
      sampleGraph (by decide)⟩

/-- C8, counterexample: in `protoGraph` the entity `owner` has the relationship names
`__proto__` and `cats`, and for the record `sampleOwner` and the type `owners` the
relationships of the resource that `formatResource` returns have the one key `cats`: the
relationship name `__proto__` is no key of them. -/
theorem formatResource_relationships_counterexample :
    sampleOwner.id ≠ .undefined ∧
    List.lookup (samplePluralizer.singular "owners".toList) protoGraph =
      some ⟨[("__proto__".toList, ⟨"hasMany".toList, "__proto__".toList⟩),
        ("cats".toList, ⟨"hasMany".toList, "cats".toList⟩)]⟩ ∧
    formatResource samplePluralizer (some sampleOwner) "owners".toList protoGraph =
      .ok (some
        { id := "7".toList
          type := "owners".toList
          attributes := [("name".toList, .str "company 7".toList)]
          links := ⟨"/owners/7".toList⟩
          relationships := [("cats".toList, ⟨⟨"/owners/7/cats".toList⟩⟩)] }) ∧
    ¬ ∃ res, formatResource samplePluralizer (some sampleOwner) "owners".toList protoGraph =
        .ok (some res) ∧
      ∀ k, k ∈ Obj.keys res.relationships ↔
        ∃ e, List.lookup (samplePluralizer.singular "owners".toList) protoGraph = some e ∧
          k ∈ Obj.keys e.relationships := by
  refine ⟨by decide, rfl, rfl, ?_⟩
  rintro ⟨res, hres, hk⟩
  have heq : formatResource samplePluralizer (some sampleOwner) "owners".toList protoGraph =
      .ok (some
        { id := "7".toList
          type := "owners".toList
          attributes := [("name".toList, .str "company 7".toList)]
          links := ⟨"/owners/7".toList⟩
          relationships := [("cats".toList, ⟨⟨"/owners/7/cats".toList⟩⟩)] }) := rfl
  rw [heq] at hres
  injection hres with hres
  injection hres with hres
  subst hres
  have hmem : "__proto__".toList ∈ Obj.keys [("cats".toList,
      (⟨⟨"/owners/7/cats".toList⟩⟩ : RelationshipEntry))] :=
    (hk "__proto__".toList).2
      ⟨⟨[("__proto__".toList, ⟨"hasMany".toList, "__proto__".toList⟩),
        ("cats".toList, ⟨"hasMany".toList, "cats".toList⟩)]⟩, rfl, by decide⟩
  revert hmem
  decide

/-- Witness of C6 on the sample run: the id `3` is found among the universities, the id
`zz` is not. -/
theorem getItem_spec_witness :
    collectionOf sampleDb "universities".toList = .ok sampleUniversities ∧
    (∃ r ∈ sampleUniversities, r.id = .str "3".toList) ∧
    (∃ before item after res, sampleUniversities = before ++ item :: after ∧
      (∀ r ∈ before, r.id ≠ .str "3".toList) ∧ item.id = .str "3".toList ∧
      formatResource samplePluralizer (some item) "universities".toList sampleGraph =
        .ok (some res) ∧
      getItem samplePluralizer sampleDb sampleGraph "universities".toList "3".toList =
        .ok ⟨200, .data (some res)⟩ ∧
      res.id = "3".toList) ∧
    (∀ r ∈ sampleUniversities, r.id ≠ .str "zz".toList) ∧
    getItem samplePluralizer sampleDb sampleGraph "universities".toList "zz".toList =
      .ok ⟨404, .errors [⟨"404".toList, "Resource Not Found".toList,
        notFoundDetail "universities".toList "zz".toList⟩]⟩ :=
  ⟨rfl, by decide,
    (getItem_spec samplePluralizer sampleDb sampleGraph "universities".toList "3".toList
      sampleUniversities rfl).2 (by decide),
    by decide,
    (getItem_spec samplePluralizer sampleDb sampleGraph "universities".toList "zz".toList
      sampleUniversities rfl).1.1 (by decide)⟩

/-- Witness of C2 on the sample run: the university `3` has programs, the id `zz` is no
university. -/
theorem getRelated_spec_witness :
    collectionOf sampleDb "universities".toList = .ok sampleUniversities ∧
    collectionOf sampleDb "programs".toList = .ok samplePrograms ∧
    (∃ p ∈ sampleUniversities, p.id = .str "3".toList) ∧
    (∀ c ∈ samplePrograms, c.id ≠ .undefined) ∧
    (∃ rs : List Resource,
      getRelated samplePluralizer sampleDb sampleGraph "university".toList
        "universities".toList "programs".toList "3".toList =
          .ok ⟨200, .collection (rs.map some)⟩ ∧
      List.Forall₂
        (fun c r => formatResource samplePluralizer (some c) "programs".toList sampleGraph =
          .ok (some r))
        (samplePrograms.filter fun c =>
          List.lookup ("university".toList ++ "Id".toList) c == some (.str "3".toList))
        rs) ∧
    (∀ p ∈ sampleUniversities, p.id ≠ .str "zz".toList) ∧
    getRelated samplePluralizer sampleDb sampleGraph "university".toList
      "universities".toList "programs".toList "zz".toList =
        .ok ⟨404, .errors [⟨"404".toList, "Parent Resource Not Found".toList,
          notFoundDetail "universities".toList "zz".toList⟩]⟩ :=
  ⟨rfl, rfl, by decide, by decide,
    ((getRelated_spec samplePluralizer sampleDb sampleGraph "university".toList
      "universities".toList "programs".toList "3".toList sampleUniversities samplePrograms
      rfl rfl).2 (by decide)).2 (by decide),
    by decide,
    (getRelated_spec samplePluralizer sampleDb sampleGraph "university".toList
      "universities".toList "programs".toList "zz".toList sampleUniversities samplePrograms
      rfl rfl).1.1 (by decide)⟩

/-! ## The collection route -/

/-- The records of a dataset that `generate` returns: every collection has
`MOCK_ITEM_COUNT` of them and each has a string as its own id. -/
theorem generate_records (pz : Pluralizer) (fk : Faker) (entities : EntityGraph)
    (db : Dataset) (h : generate pz fk entities = .ok db) (K : Str) (coll : List Record)
    (hK : List.lookup K db = some coll) :
    coll.length = MOCK_ITEM_COUNT ∧
    ∀ r ∈ coll, ∃ s, List.lookup "id".toList r = some (Value.str s) ∧ r.id = .str s := by
  obtain ⟨T, hT, hgood, _, _⟩ := generate_inv pz fk entities db h
  have hlT : List.lookup K T = some (idsOf coll) := by
    rw [← hT, idTable_lookup, hK]; rfl
  obtain ⟨hlen, hids⟩ := hgood _ (Obj.mem_of_lookup T K _ hlT)
  refine ⟨by simpa only [idsOf, List.length_map] using hlen, fun r hr => ?_⟩
  obtain ⟨s, hs⟩ := hids _ (List.mem_map_of_mem (List.lookup "id".toList) hr)
  exact ⟨s, hs, by unfold Record.id; rw [hs]; rfl⟩

theorem forall₂_length_eq {α β : Type} {R : α → β → Prop} {l : List α} {l' : List β}
    (h : List.Forall₂ R l l') : l.length = l'.length := by
  induction h with
  | nil => rfl
  | cons _ _ ih => simp only [List.length_cons, ih]

/-- C14: in every dataset that `generate` returns, for every entity `E` of the graph, the
handler of `GET /<plural of E>` answers 200 with exactly 20 resources, the i-th being what
`formatResource` makes of the i-th record of the collection, with the plural as type; and
`generate` returns a dataset on every `Linkable` graph. -/
theorem getCollection_spec (pz : Pluralizer) (fk : Faker) (entities : EntityGraph) :
    (Linkable pz entities → ∃ db, generate pz fk entities = .ok db) ∧
    ∀ db, generate pz fk entities = .ok db → ∀ E ∈ Obj.keys entities,
      ∃ coll rs, List.lookup (pz.plural E) db = some coll ∧
        getCollection pz db entities (pz.plural E) = .ok ⟨200, .collection (rs.map some)⟩ ∧
        rs.length = 20 ∧ coll.length = 20 ∧
        List.Forall₂
          (fun item r =>
            formatResource pz (some item) (pz.plural E) entities = .ok (some r))
          coll rs := by
  refine ⟨generate_total pz fk entities, fun db h E hE => ?_⟩
  obtain ⟨T, hT, _, hkeys, _⟩ := generate_inv pz fk entities db h
  have hk : pz.plural E ∈ Obj.keys db := by
    rw [← idTable_keys, hT, hkeys]
    exact List.mem_map_of_mem _ hE
  obtain ⟨coll, hcoll⟩ := (Obj.lookup_isSome_iff db _).2 hk
  obtain ⟨hlen, hids⟩ := generate_records pz fk entities db h _ coll hcoll
  obtain ⟨rs, hrs, hall⟩ := formatCollection_ok pz coll (pz.plural E) entities
    (fun item hi => by
      obtain ⟨s, _, hs⟩ := hids item hi
      rw [hs]; intro hc; cases hc)
  have hlen' : rs.length = 20 := by rw [← forall₂_length_eq hall, hlen]; rfl
  refine ⟨coll, rs, hcoll, ?_, hlen', hlen, hall⟩
  have hco : collectionOf db (pz.plural E) = .ok coll := by
    unfold collectionOf
    rw [(Obj.read_own_iff _ _ _).2 hcoll]
  simp only [getCollection, hco, hrs]

/-- Witness of C14 on the sample run: the universities. -/
theorem getCollection_spec_witness :
    Linkable samplePluralizer sampleGraph ∧
    (∃ db, generate samplePluralizer sampleFaker sampleGraph = .ok db) ∧
    generate samplePluralizer sampleFaker sampleGraph = .ok sampleDb ∧
    "university".toList ∈ Obj.keys sampleGraph ∧
    ∃ coll rs,
      List.lookup (samplePluralizer.plural "university".toList) sampleDb = some coll ∧
      getCollection samplePluralizer sampleDb sampleGraph
        (samplePluralizer.plural "university".toList) =
          .ok ⟨200, .collection (rs.map some)⟩ ∧
      rs.length = 20 ∧ coll.length = 20 ∧
      List.Forall₂
        (fun item r =>
          formatResource samplePluralizer (some item)
            (samplePluralizer.plural "university".toList) sampleGraph = .ok (some r))
        coll rs :=
  ⟨sampleGraph_linkable,
    (getCollection_spec samplePluralizer sampleFaker sampleGraph).1 sampleGraph_linkable,
    sampleDb_generated, by decide,
    (getCollection_spec samplePluralizer sampleFaker sampleGraph).2 sampleDb
      sampleDb_generated "university".toList (by decide)⟩

/-! ## The names that the parser stores -/

/-- C16: on the sentence "a thing has many constructor" `parser.parse` returns a graph whose
only key is `thing`: `entities["constructor"]` is the member of `Object.prototype`, so the
child is not registered, and the target `constructor` of the relationship is no key of the
graph. -/
theorem parse_constructor_child (pz : Pluralizer) :
    parse pz "a thing has many constructor".toList =
      .ok [("thing".toList,
        ⟨[(pz.plural "constructor".toList, ⟨"hasMany".toList, "constructor".toList⟩)]⟩)] := by
  rfl

/-- C15: for a pluralizer that treats `program` as a regular noun, the graph that
`parser.parse` returns for the default sentence has the key `programs`, the child name as
the sentence has it, and the singular of the plural of that key is `program`, not the key. -/
theorem roundtrip_fails_on_stored_plural (pz : Pluralizer)
    (h : RegularNoun pz "program".toList) :
    ∃ G, parse pz "a university has many programs and each program has many domains".toList =
        .ok G ∧
      "programs".toList ∈ Obj.keys G ∧
      pz.singular (pz.plural "programs".toList) = "program".toList ∧
      pz.singular (pz.plural "programs".toList) ≠ "programs".toList := by
  obtain ⟨h1, h2, h3⟩ := h
  have hs : pz.singular (pz.plural "programs".toList) = "program".toList := by
    have h2' : pz.plural "programs".toList = "programs".toList := h2
    have h1' : pz.plural "program".toList = "programs".toList := h1
    rw [h2', ← h1', h3]
  refine ⟨[("university".toList,
      ⟨[(pz.plural "programs".toList, ⟨"hasMany".toList, "programs".toList⟩)]⟩),
    ("programs".toList, ⟨[]⟩)], rfl, ?_, hs, ?_⟩
  · exact List.mem_cons_of_mem _ (List.mem_cons_self _ _)
  · rw [hs]
    decide

/-- Witness of C15: the sample pluralizer treats `program` as a regular noun. -/
theorem roundtrip_fails_on_stored_plural_witness :
    RegularNoun samplePluralizer "program".toList ∧
    ∃ G, parse samplePluralizer
        "a university has many programs and each program has many domains".toList = .ok G ∧
      "programs".toList ∈ Obj.keys G ∧
      samplePluralizer.singular (samplePluralizer.plural "programs".toList) =
        "program".toList ∧
      samplePluralizer.singular (samplePluralizer.plural "programs".toList) ≠
        "programs".toList :=
  ⟨⟨rfl, rfl, rfl⟩, roundtrip_fails_on_stored_plural samplePluralizer ⟨rfl, rfl, rfl⟩⟩

theorem plusGreedy_consumed (p : Char → Bool) (s : Str) :
    ∀ m ∈ plusGreedy p s, ∀ c ∈ m.1, p c = true := by
  induction s with
  | nil => intro m hm; cases hm
  | cons a s ih =>
    intro m hm c hc
    unfold plusGreedy at hm
    by_cases ha : p a = true
    · rw [if_pos ha] at hm
      rcases List.mem_append.1 hm with hm | hm
      · obtain ⟨m', hm', rfl⟩ := List.mem_map.1 hm
        rcases List.mem_cons.1 hc with hc | hc
        · rw [hc]; exact ha
        · exact ih m' hm' c hc
      · rw [List.mem_singleton] at hm
        subst hm
        rw [List.mem_singleton] at hc
        rw [hc]; exact ha
    · rw [if_neg ha] at hm
      cases hm

theorem plusLazy_consumed (p : Char → Bool) (s : Str) :
    ∀ m ∈ plusLazy p s, ∀ c ∈ m.1, p c = true := by
  induction s with
  | nil => intro m hm; cases hm
  | cons a s ih =>
    intro m hm c hc
    unfold plusLazy at hm
    by_cases ha : p a = true
    · rw [if_pos ha] at hm
      rcases List.mem_cons.1 hm with hm | hm
      · subst hm
        rw [List.mem_singleton] at hc
        rw [hc]; exact ha
      · obtain ⟨m', hm', rfl⟩ := List.mem_map.1 hm
        rcases List.mem_cons.1 hc with hc | hc
        · rw [hc]; exact ha
        · exact ih m' hm' c hc
    · rw [if_neg ha] at hm
      cases hm

theorem relationshipRegexAt_groups (s : Str) (m : Str × Str)
    (hm : m ∈ relationshipRegexAt s) :
    (∀ c ∈ m.1, isNameChar c = true) ∧ (∀ c ∈ m.2, isNameChar c = true) := by
  unfold relationshipRegexAt at hm
  simp only [List.mem_flatMap, List.mem_map] at hm
  obtain ⟨s1, _, w1, _, g1, hg1, w2, _, s2, _, w3, _, s3, _, w4, _, g2, hg2, rfl⟩ := hm
  exact ⟨plusLazy_consumed _ _ g1 hg1, plusGreedy_consumed _ _ g2 hg2⟩

theorem matchRelationship_groups (s : Str) (m : Str × Str)
    (hm : matchRelationship s = some m) :
    (∀ c ∈ m.1, isNameChar c = true) ∧ (∀ c ∈ m.2, isNameChar c = true) := by
  induction s with
  | nil => cases hm
  | cons a s ih =>
    unfold matchRelationship at hm
    cases hh : (relationshipRegexAt (a :: s)).head? with
    | none =>
      rw [hh] at hm
      exact ih hm
    | some m' =>
      rw [hh] at hm
      cases hm
      exact relationshipRegexAt_groups _ _ (List.mem_of_mem_head? hh)

theorem mem_of_mem_trim (s : Str) (c : Char) (h : c ∈ trim s) : c ∈ s := by
  unfold trim at h
  rw [List.mem_reverse] at h
  have h1 := (List.dropWhile_sublist isSpace).subset h
  rw [List.mem_reverse] at h1
  exact (List.dropWhile_sublist isSpace).subset h1

theorem canonical_of_group (g : Str) (hg : ∀ c ∈ g, isNameChar c = true) :
    Canonical (hyphenate (trim g)) := by
  intro c hc
  unfold hyphenate at hc
  obtain ⟨c0, hc0, rfl⟩ := List.mem_map.1 hc
  by_cases hsp : isSpace c0 = true
  · right
    rw [if_pos hsp]
  · left
    rw [if_neg hsp]
    have hn := hg c0 (mem_of_mem_trim g c0 hc0)
    unfold isNameChar at hn
    rw [Bool.or_eq_true] at hn
    rcases hn with hn | hn
    · unfold isLower at hn
      simpa using hn
    · exact absurd hn hsp

theorem registerEntity_canonical (entities : EntityGraph) (name : Str)
    (h : CanonicalGraph entities) (hn : Canonical name) :
    CanonicalGraph (registerEntity entities name) := by
  unfold registerEntity
  cases Obj.read entities name with
  | own e => exact h
  | inherited => exact h
  | undefined =>
    intro kv hkv
    rcases Obj.mem_set _ _ _ kv hkv with h' | h'
    · exact h kv h'
    · rw [h']
      exact ⟨hn, fun rd hrd => by cases hrd⟩

theorem addRelationship_canonical (pz : Pluralizer) (entities entities' : EntityGraph)
    (m : Str × Str) (hm1 : ∀ c ∈ m.1, isNameChar c = true)
    (hm2 : ∀ c ∈ m.2, isNameChar c = true) (h : CanonicalGraph entities)
    (hadd : addRelationship pz entities m = .ok entities') : CanonicalGraph entities' := by
  have hp := canonical_of_group m.1 hm1
  have hc := canonical_of_group m.2 hm2
  have h2 := registerEntity_canonical _ _ (registerEntity_canonical _ _ h hp) hc
  unfold addRelationship at hadd
  simp only at hadd
  cases hr : Obj.read (registerEntity (registerEntity entities (hyphenate (trim m.1)))
      (hyphenate (trim m.2))) (hyphenate (trim m.1)) with
  | inherited => rw [hr] at hadd; cases hadd
  | undefined => rw [hr] at hadd; cases hadd
  | own e =>
    rw [hr] at hadd
    cases hadd
    have he := h2 _ (Obj.mem_of_lookup _ _ _ ((Obj.read_own_iff _ _ _).1 hr))
    intro kv hkv
    rcases Obj.mem_set _ _ _ kv hkv with h' | h'
    · exact h2 kv h'
    · rw [h']
      refine ⟨hp, fun rd hrd => ?_⟩
      rcases Obj.mem_set _ _ _ rd hrd with h3 | h3
      · exact he.2 rd h3
      · rw [h3]
        exact hc

theorem parsePhrase_canonical (pz : Pluralizer) (entities entities' : EntityGraph)
    (phrase : Str) (h : CanonicalGraph entities)
    (hp : parsePhrase pz entities phrase = .ok entities') : CanonicalGraph entities' := by
  unfold parsePhrase at hp
  cases hm : matchRelationship (trim phrase) with
  | none =>
    rw [hm] at hp
    cases hp
    exact h
  | some m =>
    rw [hm] at hp
    obtain ⟨h1, h2⟩ := matchRelationship_groups _ _ hm
    exact addRelationship_canonical pz entities entities' m h1 h2 h hp

theorem parsePhrases_canonical (pz : Pluralizer) (phrases : List Str) :
    ∀ entities entities' : EntityGraph, CanonicalGraph entities →
      phrases.foldlM (parsePhrase pz) entities = .ok entities' →
      CanonicalGraph entities' := by
  induction phrases with
  | nil =>
    intro entities entities' h hf
    cases hf
    exact h
  | cons phrase rest ih =>
    intro entities entities' h hf
    obtain ⟨e1, hstep, hrest⟩ := foldlM_cons_ok hf
    exact ih e1 entities' (parsePhrase_canonical pz entities e1 phrase h hstep) hrest

theorem toNat_ofNat_small (n : Nat) (h : n < 0xd800) : (Char.ofNat n).toNat = n := by
  have hv : n.isValidChar := Or.inl h
  unfold Char.ofNat
  rw [dif_pos hv]
  rfl

theorem lowerChar_toLower (c : Char) : lowerChar c.toLower = lowerChar c := by
  unfold Char.toLower
  by_cases h : c.toNat ≥ 65 ∧ c.toNat ≤ 90
  · have hv : (Char.ofNat (c.toNat + 32)).toNat = c.toNat + 32 :=
      toNat_ofNat_small _ (by omega)
    have h1 : (0x41 ≤ c.toNat && c.toNat ≤ 0x5A) = true := by
      rw [Bool.and_eq_true, decide_eq_true_eq, decide_eq_true_eq]
      omega
    have h2 : (0x41 ≤ c.toNat + 32 && c.toNat + 32 ≤ 0x5A) = false := by
      rw [Bool.and_eq_false_iff, decide_eq_false_iff_not, decide_eq_false_iff_not]
      omega
    have h3 : (c.toNat + 32 == 0x212A) = false := by
      rw [beq_eq_false_iff_ne]; omega
    have h4 : (c.toNat + 32 == 0x0130) = false := by
      rw [beq_eq_false_iff_ne]; omega
    simp only [h, and_self, if_true]
    unfold lowerChar
    rw [hv, h1, h2, h3, h4]
    rfl
  · simp only [h, if_false]

theorem lowerChar_toUpper (c : Char) : lowerChar c.toUpper = lowerChar c := by
  unfold Char.toUpper
  by_cases h : c.toNat ≥ 97 ∧ c.toNat ≤ 122
  · have hv : (Char.ofNat (c.toNat - 32)).toNat = c.toNat - 32 :=
      toNat_ofNat_small _ (by omega)
    have h1 : (0x41 ≤ c.toNat - 32 && c.toNat - 32 ≤ 0x5A) = true := by
      rw [Bool.and_eq_true, decide_eq_true_eq, decide_eq_true_eq]
      omega
    have h2 : (0x41 ≤ c.toNat && c.toNat ≤ 0x5A) = false := by
      rw [Bool.and_eq_false_iff, decide_eq_false_iff_not, decide_eq_false_iff_not]
      omega
    have h3 : (c.toNat == 0x212A) = false := by
      rw [beq_eq_false_iff_ne]; omega
    have h4 : (c.toNat == 0x0130) = false := by
      rw [beq_eq_false_iff_ne]; omega
    have h5 : c.toNat - 32 + 32 = c.toNat := by omega
    simp only [h, and_self, if_true]
    unfold lowerChar
    rw [hv, h1, h2, h3, h4, h5, Char.ofNat_toNat]
    rfl
  · simp only [h, if_false]

theorem toLowerCase_map_toUpper (s : Str) :
    toLowerCase (s.map Char.toUpper) = toLowerCase s := by
  unfold toLowerCase
  induction s with
  | nil => rfl
  | cons c s ih =>
    simp only [List.map_cons, List.flatMap_cons, lowerChar_toUpper, ih]

theorem toLowerCase_map_toLower (s : Str) :
    toLowerCase (s.map Char.toLower) = toLowerCase s := by
  unfold toLowerCase
  induction s with
  | nil => rfl
  | cons c s ih =>
    simp only [List.map_cons, List.flatMap_cons, lowerChar_toLower, ih]

/-- C17: every key of a graph that `parser.parse` returns and every target of a
relationship in it consists only of the letters `a`..`z` and hyphens, and a sentence that
differs from `s` only in the case of its letters is parsed to the same result. -/
theorem parse_names_canonical (pz : Pluralizer) (s : Str) :
    (∀ G, parse pz s = .ok G →
      ∀ kv ∈ G, Canonical kv.1 ∧ ∀ rd ∈ kv.2.relationships, Canonical rd.2.entity) ∧
    (∀ s2 : Str, s2.map Char.toLower = s.map Char.toLower → parse pz s2 = parse pz s) ∧
    parse pz (s.map Char.toUpper) = parse pz s := by
  refine ⟨fun G h => ?_, fun s2 h2 => ?_, ?_⟩
  · exact parsePhrases_canonical pz _ [] G (fun kv hkv => by cases hkv) h
  · unfold parse
    rw [← toLowerCase_map_toLower s2, h2, toLowerCase_map_toLower]
  · unfold parse
    rw [toLowerCase_map_toUpper]

/-- Witness of C17: the default sentence in capitals. -/
theorem parse_names_canonical_witness :
    "A UNIVERSITY HAS MANY PROGRAMS".toList.map Char.toLower =
      "a university has many programs".toList.map Char.toLower ∧
    parse samplePluralizer "A UNIVERSITY HAS MANY PROGRAMS".toList =
      parse samplePluralizer "a university has many programs".toList ∧
    parse samplePluralizer "a university has many programs".toList =
      .ok [("university".toList,
             ⟨[("programs".toList, ⟨"hasMany".toList, "programs".toList⟩)]⟩),
           ("programs".toList, ⟨[]⟩)] ∧
    ∀ kv ∈ ([("university".toList,
             ⟨[("programs".toList, ⟨"hasMany".toList, "programs".toList⟩)]⟩),
           ("programs".toList, ⟨[]⟩)] : EntityGraph),
      Canonical kv.1 ∧ ∀ rd ∈ kv.2.relationships, Canonical rd.2.entity :=
  ⟨by decide,
    (parse_names_canonical samplePluralizer "a university has many programs".toList).2.1
      "A UNIVERSITY HAS MANY PROGRAMS".toList (by decide),
    rfl,
    (parse_names_canonical samplePluralizer "a university has many programs".toList).1
      _ rfl⟩

/-! ## The fields of the records -/

theorem Obj.keys_set_nodup {α : Type} (o : Obj α) (k : Str) (v : α)
    (h : (Obj.keys o).Nodup) : (Obj.keys (Obj.set o k v)).Nodup := by
  induction o with
  | nil => exact List.nodup_singleton _
  | cons hd tl ih =>
    obtain ⟨k1, v1⟩ := hd
    have h' : k1 ∉ Obj.keys tl ∧ (Obj.keys tl).Nodup := List.nodup_cons.1 h
    by_cases h1 : k1 = k
    · subst h1
      simp only [Obj.set, beq_self_eq_true, if_true]
      exact h
    · have hne : (k1 == k) = false := by simpa using h1
      simp only [Obj.set, hne, Bool.false_eq_true, if_false]
      refine List.nodup_cons.2 ⟨fun hmem => ?_, ih h'.2⟩
      rcases (Obj.mem_keys_set tl k v k1).1 hmem with hm | hm
      · exact h'.1 hm
      · exact h1 hm

theorem FieldsOf.congr {Q Q' : Str → Str → Prop} {db : Dataset} (h : FieldsOf Q db)
    (hQ : ∀ P K, Q P K ↔ Q' P K) : FieldsOf Q' db := by
  intro K coll hK r hr
  obtain ⟨h1, h2⟩ := h K coll hK r hr
  refine ⟨h1, fun f => (h2 f).trans ?_⟩
  constructor
  · rintro (hb | ⟨P, hq, hf⟩)
    · exact Or.inl hb
    · exact Or.inr ⟨P, (hQ P K).1 hq, hf⟩
  · rintro (hb | ⟨P, hq, hf⟩)
    · exact Or.inl hb
    · exact Or.inr ⟨P, (hQ P K).2 hq, hf⟩

theorem linkRelationship_fields (pz : Pluralizer) (fk : Faker) (P : Str)
    (st : Dataset × Nat) (C : Str) (st' : Dataset × Nat) (Q : Str → Str → Prop)
    (hQ : FieldsOf Q st.1) (h : linkRelationship pz fk P st C = .ok st') :
    FieldsOf (fun P' K => Q P' K ∨ (P' = P ∧ K = C)) st'.1 := by
  unfold linkRelationship at h
  cases hr : Obj.read st.1 C with
  | inherited => rw [hr] at h; cases h
  | undefined =>
    rw [hr] at h
    cases h
    intro K coll hK r hrm
    have hKC : K ≠ C := by
      intro hc
      rw [hc, (Obj.read_undefined _ _ hr).1] at hK
      cases hK
    obtain ⟨h1, h2⟩ := hQ K coll hK r hrm
    refine ⟨h1, fun f => (h2 f).trans ?_⟩
    constructor
    · rintro (hb | ⟨P', hq, hf⟩)
      · exact Or.inl hb
      · exact Or.inr ⟨P', Or.inl hq, hf⟩
    · rintro (hb | ⟨P', hq | ⟨_, hc⟩, hf⟩)
      · exact Or.inl hb
      · exact Or.inr ⟨P', hq, hf⟩
      · exact absurd hc hKC
  | own children =>
    rw [hr] at h
    simp only at h
    have hlC : List.lookup C st.1 = some children := (Obj.read_own_iff _ _ _).1 hr
    cases hl : linkChildren fk st.1 (pz.plural P) (P ++ "Id".toList) children st.2 with
    | error e => rw [hl] at h; cases h
    | ok children' =>
      rw [hl] at h
      cases h
      have hspec := linkChildren_spec fk st.1 (pz.plural P) _ children st.2 children' hl
      intro K coll hK r hrm
      change List.lookup K (Obj.set st.1 C children') = some coll at hK
      rw [Obj.lookup_set] at hK
      by_cases hKC : K = C
      · rw [if_pos hKC] at hK
        cases hK
        obtain ⟨c, hc, _, p, _, _, hreq⟩ := forall₂_mem_right hspec r hrm
        obtain ⟨h1, h2⟩ := hQ C children hlC c hc
        rw [hreq, hKC]
        refine ⟨Obj.keys_set_nodup _ _ _ h1, fun f => ?_⟩
        rw [Obj.mem_keys_set, h2 f]
        constructor
        · rintro ((hb | ⟨P', hq, hf⟩) | hf)
          · exact Or.inl hb
          · exact Or.inr ⟨P', Or.inl hq, hf⟩
          · exact Or.inr ⟨P, Or.inr ⟨rfl, rfl⟩, hf⟩
        · rintro (hb | ⟨P', hq | ⟨hp, _⟩, hf⟩)
          · exact Or.inl (Or.inl hb)
          · exact Or.inl (Or.inr ⟨P', hq, hf⟩)
          · exact Or.inr (hp ▸ hf)
      · rw [if_neg hKC] at hK
        obtain ⟨h1, h2⟩ := hQ K coll hK r hrm
        refine ⟨h1, fun f => (h2 f).trans ?_⟩
        constructor
        · rintro (hb | ⟨P', hq, hf⟩)
          · exact Or.inl hb
          · exact Or.inr ⟨P', Or.inl hq, hf⟩
        · rintro (hb | ⟨P', hq | ⟨_, hc⟩, hf⟩)
          · exact Or.inl hb
          · exact Or.inr ⟨P', hq, hf⟩
          · exact absurd hc hKC

theorem linkRelationships_fields (pz : Pluralizer) (fk : Faker) (P : Str) (cs : List Str) :
    ∀ (st st' : Dataset × Nat) (Q : Str → Str → Prop), FieldsOf Q st.1 →
      cs.foldlM (linkRelationship pz fk P) st = .ok st' →
      FieldsOf (fun P' K => Q P' K ∨ (P' = P ∧ K ∈ cs)) st'.1 := by
  induction cs with
  | nil =>
    intro st st' Q hQ h
    cases h
    exact hQ.congr fun P' K => ⟨Or.inl, fun hor => hor.elim id fun hc => by cases hc.2⟩
  | cons C rest ih =>
    intro st st' Q hQ h
    obtain ⟨s1, hstep, hrest⟩ := foldlM_cons_ok h
    have h1 := linkRelationship_fields pz fk P st C s1 Q hQ hstep
    refine (ih s1 st' _ h1 hrest).congr fun P' K => ?_
    simp only [List.mem_cons]
    tauto

theorem linkEntities_fields (pz : Pluralizer) (fk : Faker) (entities : EntityGraph)
    (ps : List Str) :
    ∀ (st st' : Dataset × Nat) (Q : Str → Str → Prop), FieldsOf Q st.1 →
      ps.foldlM (linkEntity pz fk entities) st = .ok st' →
      FieldsOf (fun P' K => Q P' K ∨ (P' ∈ ps ∧ ∃ e, List.lookup P' entities = some e ∧
        K ∈ Obj.keys e.relationships)) st'.1 := by
  induction ps with
  | nil =>
    intro st st' Q hQ h
    cases h
    exact hQ.congr fun P' K => ⟨Or.inl, fun hor => hor.elim id fun hc => by cases hc.1⟩
  | cons P rest ih =>
    intro st st' Q hQ h
    obtain ⟨s1, hstep, hrest⟩ := foldlM_cons_ok h
    unfold linkEntity at hstep
    cases hr : Obj.read entities P with
    | inherited => rw [hr] at hstep; cases hstep
    | undefined => rw [hr] at hstep; cases hstep
    | own e =>
      rw [hr] at hstep
      simp only at hstep
      have hle : List.lookup P entities = some e := (Obj.read_own_iff _ _ _).1 hr
      have h1 := linkRelationships_fields pz fk P _ st s1 Q hQ hstep
      refine (ih s1 st' _ h1 hrest).congr fun P' K => ?_
      simp only [List.mem_cons]
      constructor
      · rintro ((hq | ⟨hp, hk⟩) | ⟨hp, hk⟩)
        · exact Or.inl hq
        · exact Or.inr ⟨Or.inl hp, e, hp ▸ hle, hk⟩
        · exact Or.inr ⟨Or.inr hp, hk⟩
      · rintro (hq | ⟨hp | hp, e', he', hk⟩)
        · exact Or.inl (Or.inl hq)
        · subst hp
          rw [hle] at he'
          cases he'
          exact Or.inl (Or.inr ⟨rfl, hk⟩)
        · exact Or.inr ⟨hp, e', he', hk⟩

theorem firstPass_items (pz : Pluralizer) (fk : Faker) (names : List Str) :
    ∀ st : Dataset × Nat, (∀ kc ∈ st.1, ∀ r ∈ kc.2, ∃ k, r = newItem fk k) →
      ∀ kc ∈ (names.foldl (createItems pz fk) st).1, ∀ r ∈ kc.2, ∃ k, r = newItem fk k := by
  induction names with
  | nil => exact fun st h => h
  | cons E rest ih =>
    intro st h
    apply ih
    intro kc hkc r hr
    rcases Obj.mem_set _ _ _ kc hkc with h' | h'
    · exact h kc h' r hr
    · rw [h'] at hr
      obtain ⟨i, _, hi⟩ := List.mem_map.1 hr
      exact ⟨_, hi.symm⟩

theorem generate_fields (pz : Pluralizer) (fk : Faker) (entities : EntityGraph)
    (db : Dataset) (h : generate pz fk entities = .ok db) :
    FieldsOf (fun P K => ∃ e, List.lookup P entities = some e ∧
      K ∈ Obj.keys e.relationships) db := by
  unfold generate at h
  simp only at h
  have hitems := firstPass_items pz fk (Obj.keys entities) ([], 0)
    (fun kc hkc => by cases hkc)
  have h0 : FieldsOf (fun _ _ => False)
      ((Obj.keys entities).foldl (createItems pz fk) ([], 0)).1 := by
    intro K coll hK r hr
    obtain ⟨k, hk⟩ := hitems _ (Obj.mem_of_lookup _ _ _ hK) r hr
    rw [hk]
    have hkeys : Obj.keys (newItem fk k) = baseFields := rfl
    have hnd : baseFields.Nodup := by decide
    rw [hkeys]
    refine ⟨hnd, fun f => ?_⟩
    constructor
    · exact fun hf => Or.inl hf
    · rintro (hb | ⟨_, hf, _⟩)
      · exact hb
      · exact hf.elim
  cases hl : (Obj.keys entities).foldlM (linkEntity pz fk entities)
      ((Obj.keys entities).foldl (createItems pz fk) ([], 0)) with
  | error e => rw [hl] at h; cases h
  | ok st =>
    rw [hl] at h
    cases h
    refine (linkEntities_fields pz fk entities _ _ st _ h0 hl).congr fun P K => ?_
    constructor
    · rintro (hf | ⟨_, hk⟩)
      · exact hf.elim
      · exact hk
    · rintro ⟨e, he, hk⟩
      exact Or.inr ⟨(Obj.lookup_isSome_iff entities P).1 ⟨e, he⟩, e, he, hk⟩

/-- C18, as amended: in every dataset that `generate` returns, every record of a collection
`K` has each of its fields once, and its fields are `id`, `name`, `createdAt` and one field
`P` + `Id` for every entity `P` of the graph that has a relationship named `K`: one foreign
key for every parent, none for a collection that is no relationship's child. -/
theorem record_fields (pz : Pluralizer) (fk : Faker) (entities : EntityGraph) :
    (Linkable pz entities → ∃ db, generate pz fk entities = .ok db) ∧
    ∀ db, generate pz fk entities = .ok db →
      ∀ K coll, List.lookup K db = some coll → ∀ r ∈ coll,
        (Obj.keys r).Nodup ∧
        (∀ f, f ∈ Obj.keys r ↔
          (f = "id".toList ∨ f = "name".toList ∨ f = "createdAt".toList) ∨
          ∃ P e, List.lookup P entities = some e ∧ K ∈ Obj.keys e.relationships ∧
            f = P ++ "Id".toList) ∧
        ((∀ P e, List.lookup P entities = some e → K ∉ Obj.keys e.relationships) →
          ∀ f ∈ Obj.keys r, f = "id".toList ∨ f = "name".toList ∨ f = "createdAt".toList) ∧
        (∀ P0 e0, List.lookup P0 entities = some e0 → K ∈ Obj.keys e0.relationships →
          (∀ P e, List.lookup P entities = some e → K ∈ Obj.keys e.relationships → P = P0) →
          P0 ++ "Id".toList ∈ Obj.keys r ∧
          ∀ f ∈ Obj.keys r, (f = "id".toList ∨ f = "name".toList ∨ f = "createdAt".toList) ∨
            f = P0 ++ "Id".toList) := by
  refine ⟨generate_total pz fk entities, fun db h K coll hK r hr => ?_⟩
  obtain ⟨h1, h2⟩ := generate_fields pz fk entities db h K coll hK r hr
  have h3 : ∀ f, f ∈ Obj.keys r ↔
      (f = "id".toList ∨ f = "name".toList ∨ f = "createdAt".toList) ∨
      ∃ P e, List.lookup P entities = some e ∧ K ∈ Obj.keys e.relationships ∧
        f = P ++ "Id".toList := by
    intro f
    rw [h2 f]
    simp only [baseFields, List.mem_cons, List.mem_singleton, List.not_mem_nil, or_false]
    constructor
    · rintro (hb | ⟨P, ⟨e, he, hk⟩, hf⟩)
      · exact Or.inl hb
      · exact Or.inr ⟨P, e, he, hk, hf⟩
    · rintro (hb | ⟨P, e, he, hk, hf⟩)
      · exact Or.inl hb
      · exact Or.inr ⟨P, ⟨e, he, hk⟩, hf⟩
  refine ⟨h1, h3, fun hno f hf => ?_, fun P0 e0 he0 hk0 huniq => ⟨?_, fun f hf => ?_⟩⟩
  · rcases (h3 f).1 hf with hb | ⟨P, e, he, hk, _⟩
    · exact hb
    · exact absurd hk (hno P e he)
  · exact (h3 _).2 (Or.inr ⟨P0, e0, he0, hk0, rfl⟩)
  · rcases (h3 f).1 hf with hb | ⟨P, e, he, hk, hfp⟩
    · exact Or.inl hb
    · right
      rw [hfp, huniq P e he hk]

theorem twoParentGraph_parsed :
    parse samplePluralizer
      "a university has many programs and a school has many programs".toList =
        .ok twoParentGraph := by
  rfl

theorem twoParentDb_generated :
    generate samplePluralizer sampleFaker twoParentGraph = .ok twoParentDb := by
  rfl

/-- C18, counterexample: for the sentence
"a university has many programs and a school has many programs" the first record of the
collection `programs`, the child side of two relationships, has two fields besides `id`,
`name` and `createdAt`: `universityId` and `schoolId`. -/
theorem single_foreign_key_counterexample :
    parse samplePluralizer
      "a university has many programs and a school has many programs".toList =
        .ok twoParentGraph ∧
    generate samplePluralizer sampleFaker twoParentGraph = .ok twoParentDb ∧
    ∃ coll r rest, List.lookup "programs".toList twoParentDb = some coll ∧
      coll = r :: rest ∧
      (Obj.keys r).filter (fun f => !baseFields.contains f) =
        ["universityId".toList, "schoolId".toList] ∧
      ¬ ∃ f, (Obj.keys r).filter (fun f => !baseFields.contains f) = [f] :=
  ⟨rfl, rfl, (List.lookup "programs".toList twoParentDb).getD [],
    ((List.lookup "programs".toList twoParentDb).getD []).headD [],
    ((List.lookup "programs".toList twoParentDb).getD []).tail, rfl, rfl, rfl, by
    have heq : (Obj.keys (((List.lookup "programs".toList twoParentDb).getD []).headD
        [])).filter (fun f => !baseFields.contains f) =
        ["universityId".toList, "schoolId".toList] := rfl
    rw [heq]
    rintro ⟨f, hf⟩
    cases hf⟩

/-- Witness of C18 as amended, on the first program of the run with two parents. -/
theorem record_fields_witness :
    Linkable samplePluralizer twoParentGraph ∧
    (∃ db, generate samplePluralizer sampleFaker twoParentGraph = .ok db) ∧
    generate samplePluralizer sampleFaker twoParentGraph = .ok twoParentDb ∧
    ∀ r ∈ (List.lookup "programs".toList twoParentDb).getD [],
      (Obj.keys r).Nodup ∧
      (∀ f, f ∈ Obj.keys r ↔
        (f = "id".toList ∨ f = "name".toList ∨ f = "createdAt".toList) ∨
        ∃ P e, List.lookup P twoParentGraph = some e ∧
          "programs".toList ∈ Obj.keys e.relationships ∧ f = P ++ "Id".toList) ∧
      ((∀ P e, List.lookup P twoParentGraph = some e →
          "programs".toList ∉ Obj.keys e.relationships) →
        ∀ f ∈ Obj.keys r, f = "id".toList ∨ f = "name".toList ∨ f = "createdAt".toList) ∧
      (∀ P0 e0, List.lookup P0 twoParentGraph = some e0 →
        "programs".toList ∈ Obj.keys e0.relationships →
        (∀ P e, List.lookup P twoParentGraph = some e →
          "programs".toList ∈ Obj.keys e.relationships → P = P0) →
        P0 ++ "Id".toList ∈ Obj.keys r ∧
        ∀ f ∈ Obj.keys r, (f = "id".toList ∨ f = "name".toList ∨ f = "createdAt".toList) ∨
          f = P0 ++ "Id".toList) :=
  ⟨by unfold Linkable; decide,
    (record_fields samplePluralizer sampleFaker twoParentGraph).1
      (by unfold Linkable; decide),
    twoParentDb_generated,
    (record_fields samplePluralizer sampleFaker twoParentGraph).2 twoParentDb
      twoParentDb_generated "programs".toList _ rfl⟩

/-! ## The nested routes partition the children -/

theorem sum_indicator (ids : List Value) (v0 : Value) (hnd : ids.Nodup) (hmem : v0 ∈ ids) :
    (ids.map fun v => if (some v0 == some v) = true then 1 else 0).sum = 1 := by
  induction ids with
  | nil => cases hmem
  | cons i rest ih =>
    obtain ⟨hni, hrest⟩ := List.nodup_cons.1 hnd
    rw [List.map_cons, List.sum_cons]
    rcases List.mem_cons.1 hmem with h | h
    · subst h
      have hz : (rest.map fun v => if (some v0 == some v) = true then 1 else 0).sum = 0 := by
        apply List.sum_eq_zero
        intro n hn
        obtain ⟨v, hv, rfl⟩ := List.mem_map.1 hn
        have hne : v0 ≠ v := fun hc => hni (hc ▸ hv)
        have : (some v0 == some v) = false := by simpa using hne
        rw [this]
        rfl
      rw [hz]
      simp
    · have hne : (some v0 == some i) = false := by
        have : v0 ≠ i := fun hc => hni (hc ▸ h)
        simpa using this
      rw [hne, ih hrest h]
      rfl

theorem sum_filter_partition {α : Type} (ids : List Value) (hnd : ids.Nodup)
    (f : α → Option Value) (l : List α) (hf : ∀ a ∈ l, ∃ v ∈ ids, f a = some v) :
    (ids.map fun v => (l.filter fun a => f a == some v).length).sum = l.length := by
  induction l with
  | nil =>
    apply List.sum_eq_zero
    intro n hn
    obtain ⟨v, _, rfl⟩ := List.mem_map.1 hn
    rfl
  | cons a l ih =>
    obtain ⟨v0, hv0, hfa⟩ := hf a (List.mem_cons_self _ _)
    have ih' := ih fun b hb => hf b (List.mem_cons_of_mem _ hb)
    have hsplit : (ids.map fun v => ((a :: l).filter fun a => f a == some v).length) =
        ids.map fun v => (if (some v0 == some v) = true then 1 else 0) +
          (l.filter fun a => f a == some v).length := by
      apply List.map_congr_left
      intro v _
      rw [List.filter_cons, hfa]
      by_cases hv : (some v0 == some v) = true
      · rw [if_pos hv, if_pos hv, List.length_cons, Nat.add_comm]
      · rw [if_neg hv, if_neg hv, Nat.zero_add]
    rw [hsplit, List.sum_map_add, sum_indicator ids v0 hnd hv0, ih', List.length_cons,
      Nat.add_comm]

theorem getRelated_found (pz : Pluralizer) (db : Dataset) (entities : EntityGraph)
    (entityName plural childPlural x : Str) (parents children : List Record)
    (hp : collectionOf db plural = .ok parents)
    (hc : collectionOf db childPlural = .ok children)
    (hex : ∃ p ∈ parents, p.id = .str x) (hids : ∀ c ∈ children, c.id ≠ .undefined) :
    ∃ rs : List Resource,
      getRelated pz db entities entityName plural childPlural x =
        .ok ⟨200, .collection (rs.map some)⟩ ∧
      List.Forall₂
        (fun c r => formatResource pz (some c) childPlural entities = .ok (some r))
        (childrenOf (entityName ++ "Id".toList) (.str x) children) rs := by
  obtain ⟨p, hpm, hpid⟩ := hex
  have hany : (parents.any fun p => p.id == .str x) = true := by
    rw [List.any_eq_true]
    exact ⟨p, hpm, by simpa using hpid⟩
  have hfilter : children.filter (hasParent (entityName ++ "Id".toList) x) =
      childrenOf (entityName ++ "Id".toList) (.str x) children := by
    unfold childrenOf
    congr 1
    funext c
    exact hasParent_eq _ _ c
  obtain ⟨rs, hrs, hall⟩ := formatCollection_ok pz
    (childrenOf (entityName ++ "Id".toList) (.str x) children) childPlural entities
    (fun c hcm => hids c (List.mem_of_mem_filter hcm))
  refine ⟨rs, ?_, hall⟩
  simp only [getRelated, hp, hc, hany, if_true, hfilter, hrs]

/-- C19: in every dataset that `generate` returns, for every relationship `C` of an entity
`P` whose parent collection has pairwise distinct ids: every record of the child collection
is selected by the nested route of exactly one parent id; the nested route of every parent
answers 200 with one resource for each record it selects; and the numbers of records
selected over all parents sum to the size of the child collection. -/
theorem nested_routes_partition (pz : Pluralizer) (fk : Faker) (entities : EntityGraph) :
    (Linkable pz entities → ∃ db, generate pz fk entities = .ok db) ∧
    ∀ db, generate pz fk entities = .ok db →
      ∀ P e, List.lookup P entities = some e → ∀ C ∈ Obj.keys e.relationships,
        ∀ parents children, List.lookup (pz.plural P) db = some parents →
          List.lookup C db = some children → (parents.map Record.id).Nodup →
          (∀ r ∈ children, ∃ p ∈ parents,
            r ∈ childrenOf (P ++ "Id".toList) p.id children ∧
            ∀ q ∈ parents, r ∈ childrenOf (P ++ "Id".toList) q.id children →
              q.id = p.id) ∧
          (∀ p ∈ parents, ∃ x rs, p.id = .str x ∧
            getRelated pz db entities P (pz.plural P) C x =
              .ok ⟨200, .collection (rs.map some)⟩ ∧
            List.Forall₂
              (fun c r => formatResource pz (some c) C entities = .ok (some r))
              (childrenOf (P ++ "Id".toList) p.id children) rs ∧
            rs.length = (childrenOf (P ++ "Id".toList) p.id children).length) ∧
          (parents.map fun p =>
            (childrenOf (P ++ "Id".toList) p.id children).length).sum = children.length := by
  refine ⟨generate_total pz fk entities,
    fun db h P e hP C hC parents children hpar hch hnd => ?_⟩
  obtain ⟨T, hT, hgood, _, hL⟩ := generate_inv pz fk entities db h
  have hfk : ∀ r ∈ children, ∃ p ∈ parents,
      List.lookup (P ++ "Id".toList) r = some p.id := by
    intro r hr
    obtain ⟨v, hv, pids, hpids, hmem⟩ := hL P e C hP hC children hch r hr
    rw [← hT, idTable_lookup, hpar] at hpids
    cases hpids
    obtain ⟨p, hp, hpv⟩ := List.mem_map.1 hmem
    refine ⟨p, hp, ?_⟩
    rw [hv]
    unfold Record.id
    rw [hpv]
    rfl
  have hpids := generate_records pz fk entities db h _ parents hpar
  have hcids := generate_records pz fk entities db h _ children hch
  refine ⟨fun r hr => ?_, fun p hp => ?_, ?_⟩
  · obtain ⟨p, hp, hlk⟩ := hfk r hr
    refine ⟨p, hp, ?_, fun q _ hq => ?_⟩
    · unfold childrenOf
      rw [List.mem_filter]
      exact ⟨hr, by rw [hlk]; exact beq_self_eq_true _⟩
    · unfold childrenOf at hq
      rw [List.mem_filter] at hq
      have := hq.2
      rw [hlk] at this
      have h2 : some p.id = some q.id := by simpa using this
      exact (Option.some.inj h2).symm
  · obtain ⟨x, _, hx⟩ := hpids.2 p hp
    have hco1 : collectionOf db (pz.plural P) = .ok parents := by
      unfold collectionOf
      rw [(Obj.read_own_iff _ _ _).2 hpar]
    have hco2 : collectionOf db C = .ok children := by
      unfold collectionOf
      rw [(Obj.read_own_iff _ _ _).2 hch]
    obtain ⟨rs, hget, hall⟩ := getRelated_found pz db entities P (pz.plural P) C x parents
      children hco1 hco2 ⟨p, hp, hx⟩
      (fun c hc => by
        obtain ⟨s, _, hs⟩ := hcids.2 c hc
        rw [hs]; intro hcontra; cases hcontra)
    rw [← hx] at hall
    exact ⟨x, rs, hx, hget, hall, (forall₂_length_eq hall).symm⟩
  · have := sum_filter_partition (parents.map Record.id) hnd
      (fun c : Record => List.lookup (P ++ "Id".toList) c) children
      (fun r hr => by
        obtain ⟨p, hp, hlk⟩ := hfk r hr
        exact ⟨p.id, List.mem_map_of_mem _ hp, hlk⟩)
    rw [List.map_map] at this
    exact this

/-- Witness of C19 on the sample run: the universities and their programs. -/
theorem nested_routes_partition_witness :
    Linkable samplePluralizer sampleGraph ∧
    (∃ db, generate samplePluralizer sampleFaker sampleGraph = .ok db) ∧
    generate samplePluralizer sampleFaker sampleGraph = .ok sampleDb ∧
    (sampleUniversities.map Record.id).Nodup ∧
    (∀ r ∈ samplePrograms, ∃ p ∈ sampleUniversities,
      r ∈ childrenOf ("university".toList ++ "Id".toList) p.id samplePrograms ∧
      ∀ q ∈ sampleUniversities,
        r ∈ childrenOf ("university".toList ++ "Id".toList) q.id samplePrograms →
          q.id = p.id) ∧
    (∀ p ∈ sampleUniversities, ∃ x rs, p.id = .str x ∧
      getRelated samplePluralizer sampleDb sampleGraph "university".toList
        (samplePluralizer.plural "university".toList) "programs".toList x =
          .ok ⟨200, .collection (rs.map some)⟩ ∧
      List.Forall₂
        (fun c r => formatResource samplePluralizer (some c) "programs".toList sampleGraph =
          .ok (some r))
        (childrenOf ("university".toList ++ "Id".toList) p.id samplePrograms) rs ∧
      rs.length =
        (childrenOf ("university".toList ++ "Id".toList) p.id samplePrograms).length) ∧
    (sampleUniversities.map fun p =>
      (childrenOf ("university".toList ++ "Id".toList) p.id samplePrograms).length).sum =
        samplePrograms.length :=
  ⟨sampleGraph_linkable,
    (nested_routes_partition samplePluralizer sampleFaker sampleGraph).1
      sampleGraph_linkable,
    sampleDb_generated, by decide,
    (nested_routes_partition samplePluralizer sampleFaker sampleGraph).2 sampleDb
      sampleDb_generated "university".toList
      ⟨[("programs".toList, ⟨"hasMany".toList, "programs".toList⟩)]⟩ rfl
      "programs".toList (by decide) sampleUniversities samplePrograms rfl rfl
      (by decide)⟩

/-! ## The manual mode -/

/-- C11: with a library of plain objects, `resolve` of `faker.valueOf`, which names no
generator of the library, finds the member of `Object.prototype`, calls it and throws a
`TypeError`; `faker.toString` gives the string `[object Undefined]` and not the
reference; on `faker.__proto__.__proto__.thing` the path runs into `null` and the read
throws; `faker.nonexistent.thing` is returned unchanged. -/
theorem resolve_inherited_member (k : Nat) :
    resolve sampleLibrary k (.str "faker.valueOf".toList) = .error .typeError ∧
    resolve sampleLibrary k (.str "faker.toString".toList) =
      .ok (.str "[object Undefined]".toList) ∧
    resolve sampleLibrary k (.str "faker.__proto__.__proto__.thing".toList) =
      .error .typeError ∧
    resolve sampleLibrary k (.str "faker.nonexistent.thing".toList) =
      .ok (.str "faker.nonexistent.thing".toList) :=
  ⟨rfl, rfl, rfl, rfl⟩

/-- C12: for the schema `{"__proto__": 1}`, an object with one own key as `JSON.parse`
returns it, `generateAttributes` returns an object without keys, whatever the library. -/
theorem generateAttributes_drops_proto (lib : Library) (n : Nat) :
    generateAttributes lib (.obj [("__proto__".toList, .num 1)]) n = .ok (.obj [], n + 1) := by
  rfl

theorem splitChar_ne_nil (sep : Char) (s : Str) : splitChar sep s ≠ [] := by
  cases s with
  | nil => intro h; cases h
  | cons c s =>
    unfold splitChar
    by_cases hc : (c == sep) = true
    · rw [if_pos hc]; intro h; cases h
    · rw [if_neg hc]
      cases splitChar sep s with
      | nil => intro h; cases h
      | cons seg rest => intro h; cases h

theorem splitChar_append (sep : Char) (a b : Str) :
    splitChar sep (a ++ sep :: b) = splitChar sep a ++ splitChar sep b := by
  induction a with
  | nil =>
    show splitChar sep (sep :: b) = [[]] ++ splitChar sep b
    rw [splitChar, if_pos (beq_self_eq_true sep)]
    rfl
  | cons c a ih =>
    show splitChar sep (c :: (a ++ sep :: b)) = splitChar sep (c :: a) ++ splitChar sep b
    rw [splitChar, splitChar]
    by_cases hc : (c == sep) = true
    · rw [if_pos hc, if_pos hc, ih]
      rfl
    · rw [if_neg hc, if_neg hc, ih]
      cases hs : splitChar sep a with
      | nil => exact absurd hs (splitChar_ne_nil sep a)
      | cons seg rest => rfl

theorem splitChar_of_not_mem (sep : Char) (seg : Str) (h : sep ∉ seg) :
    splitChar sep seg = [seg] := by
  induction seg with
  | nil => rfl
  | cons c seg ih =>
    have hc : (c == sep) = false := by
      rw [beq_eq_false_iff_ne]
      intro heq
      exact h (heq ▸ List.mem_cons_self _ _)
    rw [splitChar, hc, ih fun hm => h (List.mem_cons_of_mem _ hm)]
    rfl

theorem splitChar_all_sep (sep : Char) (post : Str) (h : ∀ c ∈ post, c = sep) :
    ∀ segment ∈ splitChar sep post, segment = [] := by
  induction post with
  | nil =>
    intro segment hs
    rw [splitChar, List.mem_singleton] at hs
    exact hs
  | cons c post ih =>
    have hc : (c == sep) = true := by
      rw [beq_iff_eq]
      exact h c (List.mem_cons_self _ _)
    intro segment hs
    rw [splitChar, if_pos hc] at hs
    rcases List.mem_cons.1 hs with hs | hs
    · exact hs
    · exact ih (fun c' hc' => h c' (List.mem_cons_of_mem _ hc')) segment hs

theorem filter_nonempty_all_nil (l : List Str) (h : ∀ segment ∈ l, segment = []) :
    l.filter (fun segment => segment.length > 0) = [] := by
  rw [List.filter_eq_nil_iff]
  intro segment hs
  rw [h segment hs]
  decide

theorem segments_tail (seg post : Str) (hne : seg ≠ []) (hseg : '/' ∉ seg)
    (hpost : ∀ c ∈ post, c = '/') :
    (splitChar '/' (seg ++ post)).filter (fun segment => segment.length > 0) = [seg] := by
  have hlen : (decide (seg.length > 0)) = true := by
    rw [decide_eq_true_eq]
    exact List.length_pos.2 hne
  cases post with
  | nil =>
    rw [List.append_nil, splitChar_of_not_mem _ _ hseg, List.filter_cons, if_pos hlen]
    rfl
  | cons c post =>
    have hc : c = '/' := hpost c (List.mem_cons_self _ _)
    rw [hc, splitChar_append, splitChar_of_not_mem _ _ hseg, List.filter_append,
      filter_nonempty_all_nil _ (splitChar_all_sep '/' post
        fun c' hc' => hpost c' (List.mem_cons_of_mem _ hc')),
      List.filter_cons, if_pos hlen]
    rfl

/-- The test `isSingleItem` looks at the last segment of the path that is not empty. -/
theorem isSingleItem_of_segment (pre seg post : Str)
    (hpre : pre = [] ∨ pre.getLast? = some '/') (hne : seg ≠ []) (hseg : '/' ∉ seg)
    (hpost : ∀ c ∈ post, c = '/') :
    isSingleItem (pre ++ seg ++ post) = (seg.head? == some ':') := by
  have hlast : ((splitChar '/' (pre ++ seg ++ post)).filter
      fun segment => segment.length > 0).getLast? = some seg := by
    rcases hpre with hpre | hpre
    · rw [hpre, List.nil_append, segments_tail seg post hne hseg hpost]
      rfl
    · obtain ⟨pre', hpre'⟩ := List.getLast?_eq_some_iff.1 hpre
      rw [hpre', List.append_assoc, List.append_assoc, List.singleton_append,
        splitChar_append, List.filter_append, segments_tail seg post hne hseg hpost,
        List.getLast?_append]
      rfl
  unfold isSingleItem
  simp only [hlast, Option.getD_some]
  cases seg with
  | nil => exact absurd rfl hne
  | cons c seg =>
    by_cases hc : c = ':'
    · subst hc
      have h1 : (":".toList.isPrefixOf (':' :: seg)) = true := by
        show ((':' == ':') && ([] : List Char).isPrefixOf seg) = true
        cases seg <;> rfl
      rw [h1]
      rfl
    · have h1 : (":".toList.isPrefixOf (c :: seg)) = false := by
        show ((':' == c) && ([] : List Char).isPrefixOf seg) = false
        have : (':' == c) = false := by
          rw [beq_eq_false_iff_ne]
          exact fun h => hc h.symm
        rw [this]
        rfl
      have h2 : ((c :: seg).head? == some ':') = false := by
        show (some c == some ':') = false
        simpa using hc
      rw [h1, h2]

theorem isSingleItem_of_slashes (path : Str) (h : ∀ c ∈ path, c = '/') :
    isSingleItem path = false := by
  unfold isSingleItem
  simp only [filter_nonempty_all_nil _ (splitChar_all_sep '/' path h)]
  rfl

theorem generateAttributes_obj (lib : Library) (schema : Json) (n n' : Nat) (v : JsVal)
    (h : generateAttributes lib schema n = .ok (v, n')) : ∃ generated, v = .obj generated := by
  unfold generateAttributes at h
  cases hg : generateProps lib (forInEntries schema) [] n with
  | error e => rw [hg] at h; cases h
  | ok r =>
    obtain ⟨g, m⟩ := r
    rw [hg] at h
    cases h
    exact ⟨g, rfl⟩

theorem collectionResponse_spec (lib : Library) (schema : Json) (count : Nat) :
    ∀ (n n' : Nat) (vs : List JsVal),
      collectionResponse lib schema count n = .ok (vs, n') →
      vs.length = count ∧
      ∀ v ∈ vs, ∃ generated k k', v = .obj generated ∧
        generateAttributes lib schema k = .ok (v, k') := by
  induction count with
  | zero =>
    intro n n' vs h
    simp only [collectionResponse] at h
    cases h
    exact ⟨rfl, fun v hv => by cases hv⟩
  | succ count ih =>
    intro n n' vs h
    simp only [collectionResponse] at h
    cases hg : generateAttributes lib schema n with
    | error e => rw [hg] at h; cases h
    | ok r =>
      obtain ⟨v, m⟩ := r
      rw [hg] at h
      simp only at h
      cases hc : collectionResponse lib schema count m with
      | error e => rw [hc] at h; cases h
      | ok r2 =>
        obtain ⟨vs2, m2⟩ := r2
        rw [hc] at h
        cases h
        obtain ⟨hlen, hall⟩ := ih m n' vs2 hc
        refine ⟨by rw [List.length_cons, hlen], fun w hw => ?_⟩
        rcases List.mem_cons.1 hw with hw | hw
        · subst hw
          obtain ⟨g, hgv⟩ := generateAttributes_obj lib schema n m w hg
          exact ⟨g, n, m, hgv, hg⟩
        · exact hall w hw

theorem collectionResponse_ok (lib : Library) (schema : Json)
    (h : ∀ k, ∃ r, generateAttributes lib schema k = .ok r) (count : Nat) :
    ∀ n, ∃ r, collectionResponse lib schema count n = .ok r := by
  induction count with
  | zero => exact fun n => ⟨([], n), rfl⟩
  | succ count ih =>
    intro n
    obtain ⟨⟨v, m⟩, hv⟩ := h n
    obtain ⟨⟨vs, m2⟩, hvs⟩ := ih m
    exact ⟨(v :: vs, m2), by simp only [collectionResponse, hv, hvs]⟩

/-- C13: the handler of a manual endpoint looks at the last segment of the path between
slashes that is not empty: a path `pre ++ seg ++ post`, where `seg` is such a segment and
`post` holds slashes only, is a single item exactly when `seg` begins with `:`, and a path
of slashes only is a collection.  For a single item the handler returns the one object that
`generateAttributes` makes of the schema; for a collection it returns an array of exactly
`MOCK_COLLECTION_COUNT` = 20 objects, each made by `generateAttributes` from the schema.  It
returns whenever `generateAttributes` does. -/
theorem manualHandler_spec (lib : Library) (path : Str) (schema : Json) (n : Nat) :
    (∀ pre seg post, path = pre ++ seg ++ post → (pre = [] ∨ pre.getLast? = some '/') →
      seg ≠ [] → '/' ∉ seg → (∀ c ∈ post, c = '/') →
      isSingleItem path = (seg.head? == some ':')) ∧
    ((∀ c ∈ path, c = '/') → isSingleItem path = false) ∧
    (isSingleItem path = true → ∀ body n', manualHandler lib path schema n = .ok (body, n') →
      ∃ generated, body = .single (.obj generated) ∧
        generateAttributes lib schema n = .ok (.obj generated, n')) ∧
    (isSingleItem path = false → ∀ body n',
      manualHandler lib path schema n = .ok (body, n') →
      ∃ vs, body = .collection vs ∧ vs.length = 20 ∧
        ∀ v ∈ vs, ∃ generated k k', v = .obj generated ∧
          generateAttributes lib schema k = .ok (v, k')) ∧
    ((∀ k, ∃ r, generateAttributes lib schema k = .ok r) →
      ∃ r, manualHandler lib path schema n = .ok r) ∧
    MOCK_COLLECTION_COUNT = 20 := by
  refine ⟨fun pre seg post hpath hpre hne hseg hpost => ?_, isSingleItem_of_slashes path,
    fun hs body n' h => ?_, fun hs body n' h => ?_, fun hall => ?_, rfl⟩
  · rw [hpath]
    exact isSingleItem_of_segment pre seg post hpre hne hseg hpost
  · unfold manualHandler at h
    rw [if_pos hs] at h
    cases hg : generateAttributes lib schema n with
    | error e => rw [hg] at h; cases h
    | ok r =>
      obtain ⟨v, m⟩ := r
      rw [hg] at h
      cases h
      obtain ⟨g, hgv⟩ := generateAttributes_obj lib schema n n' v hg
      exact ⟨g, by rw [hgv], by rw [hgv]⟩
  · unfold manualHandler at h
    rw [hs] at h
    simp only [Bool.false_eq_true, if_false] at h
    cases hc : collectionResponse lib schema MOCK_COLLECTION_COUNT n with
    | error e => rw [hc] at h; cases h
    | ok r =>
      obtain ⟨vs, m⟩ := r
      rw [hc] at h
      cases h
      obtain ⟨hlen, hvs⟩ := collectionResponse_spec lib schema _ n n' vs hc
      exact ⟨vs, rfl, hlen, hvs⟩
  · unfold manualHandler
    by_cases hs : isSingleItem path = true
    · rw [if_pos hs]
      obtain ⟨⟨v, m⟩, hv⟩ := hall n
      exact ⟨(.single v, m), by rw [hv]⟩
    · rw [if_neg hs]
      obtain ⟨⟨vs, m⟩, hvs⟩ := collectionResponse_ok lib schema hall MOCK_COLLECTION_COUNT n
      exact ⟨(.collection vs, m), by rw [hvs]⟩

/-- The schema `{"id": "faker.string.uuid", "name": "faker.person.fullName"}`, the default
of the prompt. -/
theorem sampleSchema_resolves (k : Nat) :
    generateAttributes sampleLibrary
      (.obj [("id".toList, .str "faker.string.uuid".toList),
        ("name".toList, .str "faker.person.fullName".toList)]) k =
      .ok (.obj [("id".toList, .str ("uuid-".toList ++ Nat.toDigits 10 k)),
        ("name".toList, .str ("name-".toList ++ Nat.toDigits 10 (k + 1)))], k + 2) := by
  rfl

/-- Witness of C13 with the sample library and the default schema: `/users/:id` is a single
item, `/users/:id/posts`, `/users` and `/` are collections of 20 objects. -/
theorem manualHandler_spec_witness :
    isSingleItem "/users/:id".toList = true ∧
    isSingleItem "/users/:id/posts".toList = false ∧
    isSingleItem "/".toList = false ∧
    isSingleItem ("/users/".toList ++ ":id".toList ++ "/".toList) =
      (":id".toList.head? == some ':') ∧
    (∃ generated n', manualHandler sampleLibrary "/users/:id".toList
        (.obj [("id".toList, .str "faker.string.uuid".toList),
          ("name".toList, .str "faker.person.fullName".toList)]) 0 =
          .ok (.single (.obj generated), n') ∧
      generateAttributes sampleLibrary
        (.obj [("id".toList, .str "faker.string.uuid".toList),
          ("name".toList, .str "faker.person.fullName".toList)]) 0 =
          .ok (.obj generated, n')) ∧
    (∃ vs n', manualHandler sampleLibrary "/users/:id/posts".toList
        (.obj [("id".toList, .str "faker.string.uuid".toList),
          ("name".toList, .str "faker.person.fullName".toList)]) 0 =
          .ok (.collection vs, n') ∧
      vs.length = 20) := by
  have hret : ∀ path : Str, ∃ r, manualHandler sampleLibrary path
      (.obj [("id".toList, .str "faker.string.uuid".toList),
        ("name".toList, .str "faker.person.fullName".toList)]) 0 = .ok r := fun path =>
    (manualHandler_spec sampleLibrary path _ 0).2.2.2.2.1
      fun k => ⟨_, sampleSchema_resolves k⟩
  refine ⟨by decide, by decide, by decide,
    (manualHandler_spec sampleLibrary ("/users/".toList ++ ":id".toList ++ "/".toList)
      Json.null 0).1 "/users/".toList ":id".toList "/".toList rfl (Or.inr rfl) (by decide)
      (by decide) (by decide), ?_, ?_⟩
  · obtain ⟨⟨body, n'⟩, hr⟩ := hret "/users/:id".toList
    obtain ⟨g, hb, hg⟩ := (manualHandler_spec sampleLibrary "/users/:id".toList _ 0).2.2.1
      (by decide) body n' hr
    exact ⟨g, n', by rw [hr, hb], hg⟩
  · obtain ⟨⟨body, n'⟩, hr⟩ := hret "/users/:id/posts".toList
    obtain ⟨vs, hb, hlen, _⟩ :=
      (manualHandler_spec sampleLibrary "/users/:id/posts".toList _ 0).2.2.2.1
        (by decide) body n' hr
    exact ⟨vs, n', by rw [hr, hb], hlen⟩

end DynamicApi
